import Mathlib

/-!
Verification of the lunch-duty scheduling engine
(`generate_lunch_duty_schedule` in `lunch_duty_scheduler_app_02.py`).

The engine walks an ordered list of duty days, keeps per-staff counters
(total duty count, quiet-room count, last-duty ISO week), builds a candidate
pool per day through a relaxation cascade, selects up to three staff under an
avoid-pairing cap, shuffles them with the run's pseudo-random source, assigns
the quiet-room role by quiet-room count, and finally emits a per-staff summary
sorted by total duties.

Python's seeded PRNG is modelled by a stream `rand : Nat -> Nat` of draws;
`random.shuffle` is the Fisher-Yates loop of CPython's implementation with
`_randbelow (i+1)` replaced by `rand k % (i+1)`, which is a permutation for
every stream and reaches every permutation.  Python's stable `list.sort(key=k)`
is modelled by a stable insertion sort `sortLt` with the strict key order.
-/

namespace LunchDuty

/-- The three enabled weekdays (the `day_of_week` values the scheduler uses). -/
inductive Weekday
  | monday
  | tuesday
  | wednesday
deriving DecidableEq, Repr, Fintype

/-- One row of the staff availability table `staff_df`: the staff name, the
three per-weekday availability flags (1/0 in the CSV, booleans here) and the
`should_not_be_paired_with_others_with_this_tag` flag. -/
structure StaffRow where
  name : String
  monday : Bool
  tuesday : Bool
  wednesday : Bool
  avoidTag : Bool
deriving DecidableEq, Repr

/-- `staff_row[day_of_week]` — availability flag lookup for a weekday. -/
def StaffRow.avail (s : StaffRow) : Weekday → Bool
  | .monday => s.monday
  | .tuesday => s.tuesday
  | .wednesday => s.wednesday

/-- One row of `duty_days_df`: display date string, weekday, and the ISO week
number `date_parsed.isocalendar()[1]`. -/
structure DutyDate where
  date : String
  weekday : Weekday
  week : Nat
deriving DecidableEq, Repr

/-- One emitted schedule record (one per duty day). -/
structure Assignment where
  date : String
  dayOfWeek : Weekday
  mainRoom1 : String
  mainRoom2 : String
  quietRoom : String
deriving DecidableEq, Repr

/-- One summary row: `total_duties`, `quiet_room_duties` and the derived
`main_room_duties = total_duties - quiet_room_duties` (a Python int). -/
structure SummaryRow where
  staffName : String
  totalDuties : Nat
  quietRoomDuties : Nat
  mainRoomDuties : Int
deriving DecidableEq, Repr

/-- The observable outcome of one engine run: the `st.error` messages it
emitted, the schedule records and the summary rows it returned. -/
structure GenResult where
  errors : List String
  schedule : List Assignment
  summary : List SummaryRow
deriving DecidableEq, Repr

/-- The sentinel filling slots no staff member could take. -/
def UNASSIGNED : String := "UNASSIGNED"

/-- Dictionary lookup with default 0, as in `quiet_room_count.get(x, 0)`;
plain `duty_count[name]` indexing only ever sees present keys. -/
def lookupNat (m : List (String × Nat)) (k : String) : Nat :=
  match m.find? (fun p => p.1 == k) with
  | some p => p.2
  | none => 0

/-- Lookup into the `last_duty_week` dictionary (values are ints, initial
value `-10`). -/
def lookupInt (m : List (String × Int)) (k : String) : Int :=
  match m.find? (fun p => p.1 == k) with
  | some p => p.2
  | none => 0

/-- `duty_count[s] += 1` / `quiet_room_count[s] += 1`. -/
def bumpNat (m : List (String × Nat)) (k : String) : List (String × Nat) :=
  m.map (fun p => if p.1 == k then (p.1, p.2 + 1) else p)

/-- `last_duty_week[s] = week_number`. -/
def setInt (m : List (String × Int)) (k : String) (v : Int) : List (String × Int) :=
  m.map (fun p => if p.1 == k then (p.1, v) else p)

/-! ### Stable sorting (Python `list.sort(key=...)`) -/

/-- Insert `x` into `l`, passing over elements strictly before `x` and landing
in front of the first element not strictly before `x`; on ties `x` stays in
front, which makes `sortLt` a stable sort. -/
def insertLt (lt : α → α → Bool) (x : α) : List α → List α
  | [] => [x]
  | y :: ys => if lt y x then y :: insertLt lt x ys else x :: y :: ys

/-- Stable insertion sort with strict order `lt` ("comes strictly before"):
the model of CPython's stable `list.sort(key=...)`. -/
def sortLt (lt : α → α → Bool) : List α → List α
  | [] => []
  | x :: xs => insertLt lt x (sortLt lt xs)

/-- Sort key of the candidate pool: the pair `(duty_count[x], quiet_room_count[x])`
compared lexicographically (Python tuple order). -/
def keyLt (duty quiet : List (String × Nat)) (a b : String) : Bool :=
  lookupNat duty a < lookupNat duty b ||
    (lookupNat duty a == lookupNat duty b && lookupNat quiet a < lookupNat quiet b)

/-- Sort key of the role-assignment re-sort:
`quiet_room_count.get(x, 0) if x != 'UNASSIGNED' else 999`. -/
def quietKey (quiet : List (String × Nat)) (x : String) : Nat :=
  if x == UNASSIGNED then 999 else lookupNat quiet x

/-! ### The seeded shuffle (`random.shuffle`) -/

/-- `x[i], x[j] = x[j], x[i]` on a list. -/
def swapIdx (l : List α) (i j : Nat) : List α :=
  match l[i]?, l[j]? with
  | some a, some b => (l.set i b).set j a
  | _, _ => l

/-- The Fisher-Yates loop of `random.shuffle`: for `i` from `n-1` down to `1`,
draw `j = rand k % (i+1)` and swap positions `i` and `j`; returns the shuffled
list and the next unused stream index. -/
def shuffleAux (rand : Nat → Nat) : Nat → List α → Nat → List α × Nat
  | 0, l, r => (l, r)
  | i + 1, l, r => shuffleAux rand i (swapIdx l (i + 1) (rand r % (i + 2))) (r + 1)

/-- `random.shuffle(l)` driven by the stream `rand`, starting at stream
index `r`. -/
def pyShuffle (rand : Nat → Nat) (l : List α) (r : Nat) : List α × Nat :=
  shuffleAux rand (l.length - 1) l r

/-! ### Candidate pool (availability filter + relaxation cascade) -/

/-- The strict pool: available on the weekday, not already on duty in this ISO
week, and at most `target_duties` duties so far (lines 186-192). -/
def strictPool (staff : List StaffRow) (duty : List (String × Nat))
    (lastWeek : List (String × Int)) (target : Nat) (wd : Weekday) (wk : Nat) :
    List String :=
  (staff.filter (fun s =>
      s.avail wd && decide (lookupInt lastWeek s.name ≠ (wk : Int)) &&
        decide (lookupNat duty s.name ≤ target))).map (·.name)

/-- First relaxation: drop the weekly-cooldown condition (lines 195-199). -/
def relaxedPool1 (staff : List StaffRow) (duty : List (String × Nat))
    (target : Nat) (wd : Weekday) : List String :=
  (staff.filter (fun s =>
      s.avail wd && decide (lookupNat duty s.name ≤ target))).map (·.name)

/-- Second relaxation: availability only (lines 201-205). -/
def relaxedPool2 (staff : List StaffRow) (wd : Weekday) : List String :=
  (staff.filter (fun s => s.avail wd)).map (·.name)

/-- The candidate pool of one duty day exactly as the source computes it:
the strict pool, rebuilt without the cooldown condition if it has fewer than 3
members, rebuilt again with availability only if still fewer than 3. -/
def dayPool (staff : List StaffRow) (duty : List (String × Nat))
    (lastWeek : List (String × Int)) (target : Nat) (wd : Weekday) (wk : Nat) :
    List String :=
  let p1 := strictPool staff duty lastWeek target wd wk
  let p2 := if p1.length < 3 then relaxedPool1 staff duty target wd else p1
  if p2.length < 3 then relaxedPool2 staff wd else p2

/-! ### Selection (avoid-pairing cap, relaxation, sentinel fill) -/

/-- The fill loop of lines 215-224: walk the ranked pool, append untagged
candidates unconditionally and tagged candidates only while the tagged count
is below `max_tagged_allowed = 1`, stopping at 3 selections.  `sel` and `tc`
are the running selection and tagged count. -/
def fillGo (tagged : List String) : List String → List String → Nat → List String
  | [], sel, _ => sel
  | s :: rest, sel, tc =>
    if 3 ≤ sel.length then sel
    else if tagged.contains s then
      if tc < 1 then fillGo tagged rest (sel ++ [s]) (tc + 1)
      else fillGo tagged rest sel tc
    else fillGo tagged rest (sel ++ [s]) tc

/-- The tag-relaxation loop of lines 227-232: append pool members not yet
selected, stopping as soon as 3 are selected. -/
def relaxFill : List String → List String → List String
  | [], sel => sel
  | s :: rest, sel =>
    if sel.contains s then relaxFill rest sel
    else
      if 3 ≤ (sel ++ [s]).length then sel ++ [s]
      else relaxFill rest (sel ++ [s])

/-- Lines 211-236: fill pass under the avoid-pairing cap, cap-free relaxation
if fewer than 3 were selected, then sentinel fill up to exactly 3 entries. -/
def selectStaff (tagged : List String) (pool : List String) : List String :=
  let sel1 := fillGo tagged pool [] 0
  let sel2 := if sel1.length < 3 then relaxFill pool sel1 else sel1
  sel2 ++ List.replicate (3 - sel2.length) UNASSIGNED

/-- The role-assignment re-sort of line 239: ascending by quiet-room count
with the sentinel keyed as 999. -/
def roleOrder (quiet : List (String × Nat)) (sel : List String) : List String :=
  sortLt (fun a b => quietKey quiet a < quietKey quiet b) sel

/-! ### The per-day step and the engine -/

/-- The counter update of lines 245-248: for every non-sentinel selected name,
increment its duty count and set its last-duty week. -/
def applyDuty (wk : Nat) :
    List String → List (String × Nat) → List (String × Int) →
      List (String × Nat) × List (String × Int)
  | [], duty, lw => (duty, lw)
  | s :: rest, duty, lw =>
    if s == UNASSIGNED then applyDuty wk rest duty lw
    else applyDuty wk rest (bumpNat duty s) (setInt lw s (wk : Int))

/-- The engine's running state: the three counter dictionaries, the next
unused index into the random stream, and the schedule built so far
(in reverse; the engine reverses it at the end). -/
structure LoopState where
  duty : List (String × Nat)
  quiet : List (String × Nat)
  lastWeek : List (String × Int)
  ridx : Nat
  sched : List Assignment
deriving DecidableEq, Repr

/-- The ranked candidate pool of one duty day: the pool of line 186-205 sorted
by `(duty_count, quiet_room_count)` (line 208). -/
def dayRanked (staff : List StaffRow) (target : Nat) (st : LoopState)
    (d : DutyDate) : List String :=
  sortLt (keyLt st.duty st.quiet)
    (dayPool staff st.duty st.lastWeek target d.weekday d.week)

/-- The up-to-three names selected on one duty day (lines 211-236). -/
def daySelected (staff : List StaffRow) (tagged : List String) (target : Nat)
    (st : LoopState) (d : DutyDate) : List String :=
  selectStaff tagged (dayRanked staff target st d)

/-- The day's selection after the seeded shuffle (line 238) and the
role-assignment re-sort (line 239): position 0 is the quiet-room assignee,
positions 1 and 2 the main-room assignees. -/
def dayOrdered (staff : List StaffRow) (tagged : List String) (target : Nat)
    (rand : Nat → Nat) (st : LoopState) (d : DutyDate) : List String :=
  roleOrder st.quiet
    (pyShuffle rand (daySelected staff tagged target st d) st.ridx).1

/-- The schedule record emitted for one duty day (lines 253-260). -/
def dayAssignment (staff : List StaffRow) (tagged : List String) (target : Nat)
    (rand : Nat → Nat) (st : LoopState) (d : DutyDate) : Assignment :=
  { date := d.date
    dayOfWeek := d.weekday
    mainRoom1 := ((dayOrdered staff tagged target rand st d).tail[0]?).getD UNASSIGNED
    mainRoom2 := ((dayOrdered staff tagged target rand st d).tail[1]?).getD UNASSIGNED
    quietRoom := (dayOrdered staff tagged target rand st d).headD UNASSIGNED }

/-- One iteration of the date loop (lines 179-260). -/
def processDay (staff : List StaffRow) (tagged : List String) (target : Nat)
    (rand : Nat → Nat) (st : LoopState) (d : DutyDate) : LoopState :=
  let ordered := dayOrdered staff tagged target rand st d
  let quietStaff := ordered.headD UNASSIGNED
  let dl := applyDuty d.week ordered st.duty st.lastWeek
  { duty := dl.1
    quiet := if quietStaff == UNASSIGNED then st.quiet else bumpNat st.quiet quietStaff
    lastWeek := dl.2
    ridx := (pyShuffle rand (daySelected staff tagged target st d) st.ridx).2
    sched := dayAssignment staff tagged target rand st d :: st.sched }

/-- `target_duties = total_slots // len(staff_names)` (line 177). -/
def targetDuties (dutyDays : List DutyDate) (staff : List StaffRow) : Nat :=
  dutyDays.length * 3 / staff.length

/-- The summary rows in roster order, before the final sort (lines 264-269). -/
def summaryRows (duty quiet : List (String × Nat)) (names : List String) :
    List SummaryRow :=
  names.map (fun n =>
    { staffName := n
      totalDuties := lookupNat duty n
      quietRoomDuties := lookupNat quiet n
      mainRoomDuties := (lookupNat duty n : Int) - (lookupNat quiet n : Int) })

/-- The error message of line 174. -/
def emptyRosterMsg : String := "Staff list is empty. Cannot generate schedule."

/-- `generate_lunch_duty_schedule(duty_days_df, staff_df, seed)` (lines
156-272).  The seeded pseudo-random source is the stream `rand`; an empty
roster reports an error and returns empty outputs before any date is
processed; otherwise the date loop runs and the summary is sorted descending
by total duties (`sort_values('total_duties', ascending=False)`, line 271).
The source leaves that sort's kind at the pandas default `quicksort`, which
pandas documents as not stable, so the order among rows with equal totals is
not a guarantee of the program; the model refines it to a stable sort (the
behaviour observed below numpy's insertion-sort threshold), and no theorem
below depends on the order among tied rows. -/
def generate_lunch_duty_schedule (dutyDays : List DutyDate)
    (staff : List StaffRow) (rand : Nat → Nat) : GenResult :=
  if staff.length = 0 then
    { errors := [emptyRosterMsg], schedule := [], summary := [] }
  else
    let staffNames := staff.map (·.name)
    let tagged := (staff.filter (·.avoidTag)).map (·.name)
    let target := targetDuties dutyDays staff
    let init : LoopState :=
      { duty := staffNames.map (fun n => (n, 0))
        quiet := staffNames.map (fun n => (n, 0))
        lastWeek := staffNames.map (fun n => (n, (-10 : Int)))
        ridx := 0
        sched := [] }
    let fin := dutyDays.foldl (processDay staff tagged target rand) init
    { errors := []
      schedule := fin.sched.reverse
      summary :=
        sortLt (fun a b => b.totalDuties < a.totalDuties)
          (summaryRows fin.duty fin.quiet staffNames) }

/-! ### The specification's pro-pairing pipeline

The specification describes a selection pipeline that starts with a
"pro-pairing pass" over candidates carrying a "prefer-pairing" tag.  The
source has no prefer-pairing tag and no such pass (its staff table only
carries the avoid-pairing tag), so the claimed pipeline is reproduced here
from the specification's words, to be compared with the selection the source
actually performs. -/

/-- Modelled from the spec: the pro-pairing pass — "among ranked candidates
carrying the prefer-pairing tag, greedily select pairing-tagged candidates in
rank order into a provisional pick-set, but skip a candidate if selecting them
would push the count of avoid-pairing-tagged picks beyond 1", attempting to
select at most 3. -/
def provisionalPick (prefer avoidT : List String) :
    List String → List String → Nat → List String
  | [], sel, _ => sel
  | s :: rest, sel, ac =>
    if 3 ≤ sel.length then sel
    else if prefer.contains s then
      if avoidT.contains s then
        if ac < 1 then provisionalPick prefer avoidT rest (sel ++ [s]) (ac + 1)
        else provisionalPick prefer avoidT rest sel ac
      else provisionalPick prefer avoidT rest (sel ++ [s]) ac
    else provisionalPick prefer avoidT rest sel ac

/-- Modelled from the spec: the fill pass — "walk the full ranked pool in
order; skip anyone already picked; add anyone without the avoid-pairing tag
unconditionally; add someone with the avoid-pairing tag only if fewer than 1
avoid-pairing-tagged person is already picked; stop once 3 are picked". -/
def fillFrom (avoidT : List String) :
    List String → List String → Nat → List String
  | [], sel, _ => sel
  | s :: rest, sel, ac =>
    if 3 ≤ sel.length then sel
    else if sel.contains s then fillFrom avoidT rest sel ac
    else if avoidT.contains s then
      if ac < 1 then fillFrom avoidT rest (sel ++ [s]) (ac + 1)
      else fillFrom avoidT rest sel ac
    else fillFrom avoidT rest (sel ++ [s]) ac

/-- Modelled from the spec: the whole claimed selection pipeline — pro-pairing
pass, committed only when it reaches at least 2 members, then the fill pass,
the cap-free final relaxation, and the sentinel fill. -/
def proPairingSelect (prefer avoidT : List String) (pool : List String) :
    List String :=
  let prov := provisionalPick prefer avoidT pool [] 0
  let start := if 2 ≤ prov.length then prov else []
  let sel1 := fillFrom avoidT pool start (start.countP (avoidT.contains ·))
  let sel2 := if sel1.length < 3 then relaxFill pool sel1 else sel1
  sel2 ++ List.replicate (3 - sel2.length) UNASSIGNED

/-! ### Properties the claims are about -/

/-- Availability is respected: every non-sentinel name placed in a slot of an
emitted assignment names a staff member whose availability flag for that day's
weekday is set. -/
def AvailabilityRespected (staff : List StaffRow) (res : GenResult) : Prop :=
  ∀ a ∈ res.schedule,
    ∀ x ∈ [a.mainRoom1, a.mainRoom2, a.quietRoom], x ≠ UNASSIGNED →
      ∀ s ∈ staff, s.name = x → s.avail a.dayOfWeek = true

/-- The non-sentinel names among the three slots of every emitted assignment
are pairwise distinct. -/
def SlotsDistinct (res : GenResult) : Prop :=
  ∀ a ∈ res.schedule,
    ([a.mainRoom1, a.mainRoom2, a.quietRoom].filter (· ≠ UNASSIGNED)).Nodup

/-- The fairness spread: any two totals of the summary differ by at most 1. -/
def FairnessSpread (res : GenResult) : Prop :=
  ∀ r1 ∈ res.summary, ∀ r2 ∈ res.summary,
    r1.totalDuties ≤ r2.totalDuties + 1

/-! ### Lemmas about the stable sort -/

lemma insertLt_perm (lt : α → α → Bool) (x : α) (l : List α) :
    (insertLt lt x l).Perm (x :: l) := by
  induction l with
  | nil => exact List.Perm.refl _
  | cons y ys ih =>
    cases h : lt y x with
    | true =>
      simp only [insertLt, h, if_pos]
      exact (ih.cons y).trans (List.Perm.swap x y ys)
    | false =>
      simp only [insertLt, h]
      exact List.Perm.refl _

lemma sortLt_perm (lt : α → α → Bool) (l : List α) : (sortLt lt l).Perm l := by
  induction l with
  | nil => exact List.Perm.refl _
  | cons x xs ih => exact (insertLt_perm lt x (sortLt lt xs)).trans (ih.cons x)

lemma mem_sortLt (lt : α → α → Bool) (l : List α) (x : α) :
    x ∈ sortLt lt l ↔ x ∈ l :=
  (sortLt_perm lt l).mem_iff

lemma length_sortLt (lt : α → α → Bool) (l : List α) :
    (sortLt lt l).length = l.length :=
  (sortLt_perm lt l).length_eq

lemma pairwise_insertLt (lt : α → α → Bool)
    (hA : ∀ a b, lt a b = true → lt b a = false)
    (hN : ∀ a b c, lt b a = false → lt c b = false → lt c a = false)
    (x : α) (l : List α) (hl : l.Pairwise (fun a b => lt b a = false)) :
    (insertLt lt x l).Pairwise (fun a b => lt b a = false) := by
  induction l with
  | nil => simp [insertLt]
  | cons y ys ih =>
    rw [List.pairwise_cons] at hl
    obtain ⟨hy, hys⟩ := hl
    cases h : lt y x with
    | true =>
      simp only [insertLt, h, if_pos]
      rw [List.pairwise_cons]
      refine ⟨fun z hz => ?_, ih hys⟩
      rcases List.mem_cons.mp ((insertLt_perm lt x ys).mem_iff.mp hz) with hzx | hzys
      · exact hzx ▸ hA y x h
      · exact hy z hzys
    | false =>
      simp only [insertLt, h, Bool.false_eq_true, if_false]
      rw [List.pairwise_cons]
      refine ⟨fun z hz => ?_, List.pairwise_cons.mpr ⟨hy, hys⟩⟩
      rcases List.mem_cons.mp hz with hzy | hzys
      · exact hzy ▸ h
      · exact hN x y z h (hy z hzys)

lemma pairwise_sortLt (lt : α → α → Bool)
    (hA : ∀ a b, lt a b = true → lt b a = false)
    (hN : ∀ a b c, lt b a = false → lt c b = false → lt c a = false)
    (l : List α) :
    (sortLt lt l).Pairwise (fun a b => lt b a = false) := by
  induction l with
  | nil => simp [sortLt]
  | cons x xs ih => exact pairwise_insertLt lt hA hN x (sortLt lt xs) ih

lemma filter_insertLt (lt : α → α → Bool) (p : α → Bool) (x : α)
    (hp : ∀ y, lt y x = true → (p y && p x) = false) :
    ∀ l : List α,
      (insertLt lt x l).filter p = if p x then x :: l.filter p else l.filter p := by
  intro l
  induction l with
  | nil => cases h : p x <;> simp [insertLt, List.filter, h]
  | cons y ys ih =>
    cases h : lt y x with
    | true =>
      have hyx := hp y h
      simp only [insertLt, h, if_pos]
      cases hx : p x with
      | true =>
        have hyf : p y = false := by
          cases hy : p y
          · rfl
          · rw [hy, hx] at hyx; exact absurd hyx (by simp)
        simp only [List.filter, hyf, ih, hx, if_pos]
      | false =>
        cases hy : p y <;> simp [List.filter, hy, ih, hx]
    | false =>
      simp only [insertLt, h]
      cases hx : p x <;> simp [List.filter, hx]

lemma filter_sortLt (lt : α → α → Bool) (p : α → Bool)
    (hp : ∀ x y, lt y x = true → (p y && p x) = false) (l : List α) :
    (sortLt lt l).filter p = l.filter p := by
  induction l with
  | nil => rfl
  | cons x xs ih =>
    rw [sortLt, filter_insertLt lt p x (fun y => hp x y), ih, List.filter_cons]

lemma sortLt_of_forall_false (lt : α → α → Bool) :
    ∀ l : List α, (∀ a ∈ l, ∀ b ∈ l, lt a b = false) → sortLt lt l = l := by
  intro l
  induction l with
  | nil => intro _; rfl
  | cons x xs ih =>
    intro h
    rw [sortLt, ih (fun a ha b hb => h a (by simp [ha]) b (by simp [hb]))]
    cases xs with
    | nil => rfl
    | cons y ys =>
      rw [insertLt, h y (by simp) x (by simp)]
      simp

/-! ### Lemmas about the shuffle -/

lemma cons_set_perm (a b : α) :
    ∀ (l : List α) (j : Nat), l[j]? = some b → (b :: l.set j a).Perm (a :: l) := by
  intro l
  induction l with
  | nil => intro j h; simp at h
  | cons y ys ih =>
    intro j h
    cases j with
    | zero =>
      simp only [List.getElem?_cons_zero, Option.some.injEq] at h
      rw [h, List.set_cons_zero]
      exact List.Perm.swap a b ys
    | succ k =>
      rw [List.getElem?_cons_succ] at h
      rw [List.set_cons_succ]
      exact ((List.Perm.swap y b (ys.set k a)).trans ((ih k h).cons y)).trans
        (List.Perm.swap a y ys)

lemma set_set_perm (a b : α) :
    ∀ (l : List α) (i j : Nat), l[i]? = some a → l[j]? = some b →
      ((l.set i b).set j a).Perm l := by
  intro l
  induction l with
  | nil => intro i j h _; simp at h
  | cons x xs ih =>
    intro i j hi hj
    cases i with
    | zero =>
      simp only [List.getElem?_cons_zero, Option.some.injEq] at hi
      cases j with
      | zero =>
        simp only [List.getElem?_cons_zero, Option.some.injEq] at hj
        rw [List.set_cons_zero, List.set_cons_zero, hi]
      | succ k =>
        rw [List.getElem?_cons_succ] at hj
        rw [List.set_cons_zero, List.set_cons_succ, hi]
        exact cons_set_perm a b xs k hj
    | succ m =>
      rw [List.getElem?_cons_succ] at hi
      cases j with
      | zero =>
        simp only [List.getElem?_cons_zero, Option.some.injEq] at hj
        rw [List.set_cons_succ, List.set_cons_zero, hj]
        exact cons_set_perm b a xs m hi
      | succ k =>
        rw [List.getElem?_cons_succ] at hj
        rw [List.set_cons_succ, List.set_cons_succ]
        exact (ih m k hi hj).cons x

lemma swapIdx_perm (l : List α) (i j : Nat) : (swapIdx l i j).Perm l := by
  rw [swapIdx]
  cases hi : l[i]? with
  | none => exact List.Perm.refl l
  | some a =>
    cases hj : l[j]? with
    | none => exact List.Perm.refl l
    | some b => exact set_set_perm a b l i j hi hj

lemma shuffleAux_perm (rand : Nat → Nat) :
    ∀ (n : Nat) (l : List α) (r : Nat), (shuffleAux rand n l r).1.Perm l := by
  intro n
  induction n with
  | zero => intro l r; exact List.Perm.refl l
  | succ m ih =>
    intro l r
    exact (ih (swapIdx l (m + 1) (rand r % (m + 2))) (r + 1)).trans
      (swapIdx_perm l (m + 1) (rand r % (m + 2)))

lemma pyShuffle_perm (rand : Nat → Nat) (l : List α) (r : Nat) :
    (pyShuffle rand l r).1.Perm l :=
  shuffleAux_perm rand (l.length - 1) l r

/-! ### Small helper lemmas -/

lemma lookupNat_map_zero (names : List String) (x : String) :
    lookupNat (names.map (fun n => (n, 0))) x = 0 := by
  induction names with
  | nil => rfl
  | cons n ns ih =>
    rw [List.map_cons, lookupNat, List.find?_cons]
    cases h : ((n, 0).1 == x) with
    | true => rfl
    | false => exact ih

lemma provisionalPick_nil_prefer (avoidT : List String) :
    ∀ (pool sel : List String) (ac : Nat),
      provisionalPick [] avoidT pool sel ac = sel := by
  intro pool
  induction pool with
  | nil => intro sel ac; rfl
  | cons s rest ih =>
    intro sel ac
    rw [provisionalPick]
    by_cases h : 3 ≤ sel.length
    · rw [if_pos h]
    · rw [if_neg h]
      simp only [List.contains, List.elem_nil, Bool.false_eq_true, if_false]
      exact ih sel ac

lemma fillFrom_eq_fillGo (avoidT : List String) :
    ∀ (pool sel : List String) (tc : Nat), pool.Nodup →
      (∀ s ∈ pool, s ∉ sel) →
      fillFrom avoidT pool sel tc = fillGo avoidT pool sel tc := by
  intro pool
  induction pool with
  | nil => intro sel tc _ _; rfl
  | cons s rest ih =>
    intro sel tc hnd hdisj
    have hrestnd : rest.Nodup := hnd.of_cons
    have hcontains : sel.contains s = false := by
      simp only [List.contains, List.elem_eq_mem, decide_eq_false_iff_not]
      exact hdisj s (by simp)
    have hdisj' : ∀ u ∈ rest, u ∉ sel ++ [s] := by
      intro u hu
      rw [List.mem_append, List.mem_singleton]
      push_neg
      refine ⟨hdisj u (by simp [hu]), ?_⟩
      intro hus
      exact (List.nodup_cons.mp hnd).1 (hus ▸ hu)
    rw [fillFrom, fillGo]
    by_cases h3 : 3 ≤ sel.length
    · rw [if_pos h3, if_pos h3]
    · rw [if_neg h3, if_neg h3, hcontains]
      simp only [Bool.false_eq_true, if_false]
      cases ht : avoidT.contains s with
      | true =>
        by_cases htc : tc < 1
        · rw [if_pos htc, if_pos htc]
          exact ih (sel ++ [s]) (tc + 1) hrestnd hdisj'
        · rw [if_neg htc, if_neg htc]
          exact ih sel tc hrestnd (fun u hu => hdisj u (by simp [hu]))
      | false =>
        exact ih (sel ++ [s]) tc hrestnd hdisj'

/-! ### Membership and shape lemmas for the per-day pipeline -/

lemma mem_strictPool (staff : List StaffRow) (duty : List (String × Nat))
    (lastWeek : List (String × Int)) (target : Nat) (wd : Weekday) (wk : Nat)
    (x : String) (hx : x ∈ strictPool staff duty lastWeek target wd wk) :
    ∃ s ∈ staff, s.name = x ∧ s.avail wd = true := by
  rw [strictPool] at hx
  rcases List.mem_map.mp hx with ⟨s, hs, hname⟩
  rcases List.mem_filter.mp hs with ⟨hmem, hcond⟩
  rw [Bool.and_assoc, Bool.and_eq_true] at hcond
  exact ⟨s, hmem, hname, hcond.1⟩

lemma mem_relaxedPool1 (staff : List StaffRow) (duty : List (String × Nat))
    (target : Nat) (wd : Weekday) (x : String)
    (hx : x ∈ relaxedPool1 staff duty target wd) :
    ∃ s ∈ staff, s.name = x ∧ s.avail wd = true := by
  rw [relaxedPool1] at hx
  rcases List.mem_map.mp hx with ⟨s, hs, hname⟩
  rcases List.mem_filter.mp hs with ⟨hmem, hcond⟩
  rw [Bool.and_eq_true] at hcond
  exact ⟨s, hmem, hname, hcond.1⟩

lemma mem_relaxedPool2 (staff : List StaffRow) (wd : Weekday) (x : String)
    (hx : x ∈ relaxedPool2 staff wd) :
    ∃ s ∈ staff, s.name = x ∧ s.avail wd = true := by
  rw [relaxedPool2] at hx
  rcases List.mem_map.mp hx with ⟨s, hs, hname⟩
  rcases List.mem_filter.mp hs with ⟨hmem, hcond⟩
  exact ⟨s, hmem, hname, hcond⟩

lemma mem_dayPool (staff : List StaffRow) (duty : List (String × Nat))
    (lastWeek : List (String × Int)) (target : Nat) (wd : Weekday) (wk : Nat)
    (x : String) (hx : x ∈ dayPool staff duty lastWeek target wd wk) :
    ∃ s ∈ staff, s.name = x ∧ s.avail wd = true := by
  rw [dayPool] at hx
  split at hx
  · split at hx
    · exact mem_relaxedPool2 staff wd x hx
    · exact mem_relaxedPool1 staff duty target wd x hx
  · exact mem_strictPool staff duty lastWeek target wd wk x hx

lemma nodup_dayPool (staff : List StaffRow) (duty : List (String × Nat))
    (lastWeek : List (String × Int)) (target : Nat) (wd : Weekday) (wk : Nat)
    (h : (staff.map (·.name)).Nodup) :
    (dayPool staff duty lastWeek target wd wk).Nodup := by
  have hsub : ∀ p : StaffRow → Bool, ((staff.filter p).map (·.name)).Nodup :=
    fun p => h.sublist (List.Sublist.map (fun s => s.name)
      (@List.filter_sublist _ p staff))
  rw [dayPool]
  split
  · split
    · exact hsub _
    · exact hsub _
  · exact hsub _

lemma fillGo_eq_append (tagged : List String) :
    ∀ (pool sel : List String) (tc : Nat),
      ∃ sub, fillGo tagged pool sel tc = sel ++ sub ∧ sub.Sublist pool := by
  intro pool
  induction pool with
  | nil => intro sel tc; exact ⟨[], by simp [fillGo], List.Sublist.refl []⟩
  | cons s rest ih =>
    intro sel tc
    rw [fillGo]
    by_cases h3 : 3 ≤ sel.length
    · rw [if_pos h3]
      exact ⟨[], by simp, List.nil_sublist _⟩
    · rw [if_neg h3]
      cases ht : tagged.contains s with
      | true =>
        simp only
        by_cases htc : tc < 1
        · rw [if_pos htc]
          obtain ⟨sub, heq, hsub⟩ := ih (sel ++ [s]) (tc + 1)
          exact ⟨s :: sub, by rw [heq, List.append_assoc]; rfl, hsub.cons₂ s⟩
        · rw [if_neg htc]
          obtain ⟨sub, heq, hsub⟩ := ih sel tc
          exact ⟨sub, heq, hsub.cons s⟩
      | false =>
        simp only [Bool.false_eq_true, if_false]
        obtain ⟨sub, heq, hsub⟩ := ih (sel ++ [s]) tc
        exact ⟨s :: sub, by rw [heq, List.append_assoc]; rfl, hsub.cons₂ s⟩

lemma relaxFill_eq_append :
    ∀ (pool sel : List String),
      ∃ sub, relaxFill pool sel = sel ++ sub ∧ sub.Sublist pool := by
  intro pool
  induction pool with
  | nil => intro sel; exact ⟨[], by simp [relaxFill], List.Sublist.refl []⟩
  | cons s rest ih =>
    intro sel
    rw [relaxFill]
    by_cases hc : sel.contains s = true
    · rw [if_pos hc]
      obtain ⟨sub, heq, hsub⟩ := ih sel
      exact ⟨sub, heq, hsub.cons s⟩
    · rw [if_neg hc]
      by_cases h3 : 3 ≤ (sel ++ [s]).length
      · rw [if_pos h3]
        exact ⟨[s], rfl, (List.nil_sublist rest).cons₂ s⟩
      · rw [if_neg h3]
        obtain ⟨sub, heq, hsub⟩ := ih (sel ++ [s])
        exact ⟨s :: sub, by rw [heq, List.append_assoc]; rfl, hsub.cons₂ s⟩

lemma relaxFill_nodup :
    ∀ (pool sel : List String), sel.Nodup → (relaxFill pool sel).Nodup := by
  intro pool
  induction pool with
  | nil => intro sel h; exact h
  | cons s rest ih =>
    intro sel h
    rw [relaxFill]
    by_cases hc : sel.contains s = true
    · rw [if_pos hc]
      exact ih sel h
    · rw [if_neg hc]
      have hns : s ∉ sel := by
        intro hmem
        exact hc (by simp [List.contains, List.elem_eq_mem, hmem])
      have h' : (sel ++ [s]).Nodup := by
        rw [List.nodup_append]
        exact ⟨h, List.nodup_singleton s, by simpa using hns⟩
      by_cases h3 : 3 ≤ (sel ++ [s]).length
      · rw [if_pos h3]
        exact h'
      · rw [if_neg h3]
        exact ih (sel ++ [s]) h'

lemma mem_selectStaff (tagged pool : List String) (x : String)
    (hx : x ∈ selectStaff tagged pool) : x ∈ pool ∨ x = UNASSIGNED := by
  rw [selectStaff] at hx
  rcases List.mem_append.mp hx with hsel | hpad
  · obtain ⟨sub1, heq1, hsub1⟩ := fillGo_eq_append tagged pool [] 0
    split at hsel
    · obtain ⟨sub2, heq2, hsub2⟩ := relaxFill_eq_append pool (fillGo tagged pool [] 0)
      rw [heq2] at hsel
      rcases List.mem_append.mp hsel with h1 | h2
      · rw [heq1, List.nil_append] at h1
        exact Or.inl (hsub1.mem h1)
      · exact Or.inl (hsub2.mem h2)
    · rw [heq1, List.nil_append] at hsel
      exact Or.inl (hsub1.mem hsel)
  · exact Or.inr (List.eq_of_mem_replicate hpad)

lemma selectStaff_filter_nodup (tagged pool : List String) (h : pool.Nodup) :
    ((selectStaff tagged pool).filter (· ≠ UNASSIGNED)).Nodup := by
  have hsel1 : (fillGo tagged pool [] 0).Nodup := by
    obtain ⟨sub, heq, hsub⟩ := fillGo_eq_append tagged pool [] 0
    rw [heq, List.nil_append]
    exact h.sublist hsub
  have hsel2 : (if (fillGo tagged pool [] 0).length < 3 then
      relaxFill pool (fillGo tagged pool [] 0) else fillGo tagged pool [] 0).Nodup := by
    split
    · exact relaxFill_nodup pool _ hsel1
    · exact hsel1
  rw [selectStaff]
  rw [List.filter_append]
  have hpad : (List.replicate
      (3 - (if (fillGo tagged pool [] 0).length < 3 then
        relaxFill pool (fillGo tagged pool [] 0)
      else fillGo tagged pool [] 0).length) UNASSIGNED).filter
        (fun x => decide (x ≠ UNASSIGNED)) = [] := by
    rw [List.filter_eq_nil_iff]
    intro a ha
    rw [List.eq_of_mem_replicate ha]
    simp
  rw [hpad, List.append_nil]
  exact (List.Nodup.filter _ hsel2)

lemma fillGo_length_le (tagged : List String) :
    ∀ (pool sel : List String) (tc : Nat), sel.length ≤ 3 →
      (fillGo tagged pool sel tc).length ≤ 3 := by
  intro pool
  induction pool with
  | nil => intro sel tc h; exact h
  | cons s rest ih =>
    intro sel tc h
    rw [fillGo]
    by_cases h3 : 3 ≤ sel.length
    · rw [if_pos h3]; exact h
    · rw [if_neg h3]
      have hlen : (sel ++ [s]).length ≤ 3 := by
        rw [List.length_append]
        simp only [List.length_singleton]
        omega
      cases ht : tagged.contains s with
      | true =>
        simp only
        by_cases htc : tc < 1
        · rw [if_pos htc]; exact ih (sel ++ [s]) (tc + 1) hlen
        · rw [if_neg htc]; exact ih sel tc (by omega)
      | false =>
        simp only [Bool.false_eq_true, if_false]
        exact ih (sel ++ [s]) tc hlen

lemma processDay_sched (staff : List StaffRow) (tagged : List String)
    (target : Nat) (rand : Nat → Nat) (st : LoopState) (d : DutyDate) :
    (processDay staff tagged target rand st d).sched =
      dayAssignment staff tagged target rand st d :: st.sched := rfl

lemma dayAssignment_mainRoom1 (staff : List StaffRow) (tagged : List String)
    (target : Nat) (rand : Nat → Nat) (st : LoopState) (d : DutyDate) :
    (dayAssignment staff tagged target rand st d).mainRoom1 =
      ((dayOrdered staff tagged target rand st d).tail[0]?).getD UNASSIGNED := by
  rw [dayAssignment]

lemma dayAssignment_mainRoom2 (staff : List StaffRow) (tagged : List String)
    (target : Nat) (rand : Nat → Nat) (st : LoopState) (d : DutyDate) :
    (dayAssignment staff tagged target rand st d).mainRoom2 =
      ((dayOrdered staff tagged target rand st d).tail[1]?).getD UNASSIGNED := by
  rw [dayAssignment]

lemma dayAssignment_quietRoom (staff : List StaffRow) (tagged : List String)
    (target : Nat) (rand : Nat → Nat) (st : LoopState) (d : DutyDate) :
    (dayAssignment staff tagged target rand st d).quietRoom =
      (dayOrdered staff tagged target rand st d).headD UNASSIGNED := by
  rw [dayAssignment]

lemma dayAssignment_dayOfWeek (staff : List StaffRow) (tagged : List String)
    (target : Nat) (rand : Nat → Nat) (st : LoopState) (d : DutyDate) :
    (dayAssignment staff tagged target rand st d).dayOfWeek = d.weekday := by
  rw [dayAssignment]

lemma relaxFill_length_le :
    ∀ (pool sel : List String), sel.length < 3 →
      (relaxFill pool sel).length ≤ 3 := by
  intro pool
  induction pool with
  | nil => intro sel h; exact (by omega : sel.length ≤ 3)
  | cons s rest ih =>
    intro sel h
    rw [relaxFill]
    by_cases hc : sel.contains s = true
    · rw [if_pos hc]; exact ih sel h
    · rw [if_neg hc]
      by_cases h3 : 3 ≤ (sel ++ [s]).length
      · rw [if_pos h3]
        rw [List.length_append]
        simp only [List.length_singleton]
        omega
      · rw [if_neg h3]
        exact ih (sel ++ [s]) (by omega)

lemma selectStaff_length (tagged pool : List String) :
    (selectStaff tagged pool).length = 3 := by
  have h1 : (fillGo tagged pool [] 0).length ≤ 3 :=
    fillGo_length_le tagged pool [] 0 (by simp)
  simp only [selectStaff]
  by_cases hc : (fillGo tagged pool [] 0).length < 3
  · rw [if_pos hc, List.length_append, List.length_replicate]
    have h2 := relaxFill_length_le pool (fillGo tagged pool [] 0) hc
    omega
  · rw [if_neg hc, List.length_append, List.length_replicate]
    omega

lemma dayOrdered_perm (staff : List StaffRow) (tagged : List String)
    (target : Nat) (rand : Nat → Nat) (st : LoopState) (d : DutyDate) :
    (dayOrdered staff tagged target rand st d).Perm
      (daySelected staff tagged target st d) := by
  rw [dayOrdered, roleOrder]
  exact (sortLt_perm _ _).trans (pyShuffle_perm rand _ st.ridx)

lemma dayOrdered_length (staff : List StaffRow) (tagged : List String)
    (target : Nat) (rand : Nat → Nat) (st : LoopState) (d : DutyDate) :
    (dayOrdered staff tagged target rand st d).length = 3 := by
  rw [(dayOrdered_perm staff tagged target rand st d).length_eq, daySelected]
  exact selectStaff_length tagged _

lemma dayOrdered_mem (staff : List StaffRow) (tagged : List String)
    (target : Nat) (rand : Nat → Nat) (st : LoopState) (d : DutyDate)
    (x : String) (hx : x ∈ dayOrdered staff tagged target rand st d) :
    (∃ s ∈ staff, s.name = x ∧ s.avail d.weekday = true) ∨ x = UNASSIGNED := by
  have hx2 : x ∈ daySelected staff tagged target st d :=
    (dayOrdered_perm staff tagged target rand st d).mem_iff.mp hx
  rw [daySelected] at hx2
  rcases mem_selectStaff _ _ x hx2 with hp | hu
  · rw [dayRanked, mem_sortLt] at hp
    exact Or.inl (mem_dayPool _ _ _ _ _ _ x hp)
  · exact Or.inr hu

lemma slot_mem_of_ordered (L : List String) (x : String)
    (hx : x ∈ [(L.tail[0]?).getD UNASSIGNED, (L.tail[1]?).getD UNASSIGNED,
      L.headD UNASSIGNED]) :
    x = UNASSIGNED ∨ x ∈ L := by
  have htail : ∀ i : Nat,
      ((L.tail[i]?).getD UNASSIGNED) = UNASSIGNED ∨
      ((L.tail[i]?).getD UNASSIGNED) ∈ L := by
    intro i
    cases hi : L.tail[i]? with
    | none => exact Or.inl rfl
    | some v =>
      right
      rw [Option.getD_some]
      exact List.mem_of_mem_tail (List.getElem?_mem hi)
  simp only [List.mem_cons, List.not_mem_nil, or_false] at hx
  rcases hx with hx | hx | hx
  · rw [hx]; exact htail 0
  · rw [hx]; exact htail 1
  · rw [hx]
    cases L with
    | nil => exact Or.inl rfl
    | cons hd tl => right; rw [List.headD_cons]; simp

lemma dayAssignment_slot_mem (staff : List StaffRow) (tagged : List String)
    (target : Nat) (rand : Nat → Nat) (st : LoopState) (d : DutyDate)
    (x : String)
    (hx : x ∈ [(dayAssignment staff tagged target rand st d).mainRoom1,
      (dayAssignment staff tagged target rand st d).mainRoom2,
      (dayAssignment staff tagged target rand st d).quietRoom]) :
    x = UNASSIGNED ∨ x ∈ dayOrdered staff tagged target rand st d := by
  rw [dayAssignment_mainRoom1, dayAssignment_mainRoom2,
    dayAssignment_quietRoom] at hx
  exact slot_mem_of_ordered _ x hx

lemma mem_foldl_sched (staff : List StaffRow) (tagged : List String)
    (target : Nat) (rand : Nat → Nat) :
    ∀ (ds : List DutyDate) (st : LoopState) (a : Assignment),
      a ∈ (List.foldl (processDay staff tagged target rand) st ds).sched →
      a ∈ st.sched ∨
        ∃ d ∈ ds, ∃ st', a = dayAssignment staff tagged target rand st' d := by
  intro ds
  induction ds with
  | nil => intro st a ha; exact Or.inl ha
  | cons d rest ih =>
    intro st a ha
    rw [List.foldl_cons] at ha
    rcases ih (processDay staff tagged target rand st d) a ha with hmem | hfound
    · rw [processDay_sched] at hmem
      rcases List.mem_cons.mp hmem with heq | hold
      · exact Or.inr ⟨d, by simp, st, heq⟩
      · exact Or.inl hold
    · obtain ⟨d', hd', st', heq⟩ := hfound
      exact Or.inr ⟨d', by simp [hd'], st', heq⟩

lemma exists_three (l : List α) (h : l.length = 3) :
    ∃ a b c, l = [a, b, c] := by
  cases l with
  | nil => simp at h
  | cons a t =>
    cases t with
    | nil => simp at h
    | cons b t2 =>
      cases t2 with
      | nil => simp at h
      | cons c t3 =>
        cases t3 with
        | nil => exact ⟨a, b, c, rfl⟩
        | cons e t4 =>
          simp only [List.length_cons, List.length_nil] at h
          omega

lemma dayAssignment_filter_nodup (staff : List StaffRow) (tagged : List String)
    (target : Nat) (rand : Nat → Nat) (st : LoopState) (d : DutyDate)
    (h : (staff.map (·.name)).Nodup) :
    ([(dayAssignment staff tagged target rand st d).mainRoom1,
      (dayAssignment staff tagged target rand st d).mainRoom2,
      (dayAssignment staff tagged target rand st d).quietRoom].filter
        (· ≠ UNASSIGNED)).Nodup := by
  have hlen := dayOrdered_length staff tagged target rand st d
  obtain ⟨o0, o1, o2, hord⟩ := exists_three _ hlen
  have hslots : [(dayAssignment staff tagged target rand st d).mainRoom1,
      (dayAssignment staff tagged target rand st d).mainRoom2,
      (dayAssignment staff tagged target rand st d).quietRoom] =
      [o1, o2, o0] := by
    rw [dayAssignment_mainRoom1, dayAssignment_mainRoom2, dayAssignment_quietRoom,
      hord]
    rfl
  rw [hslots]
  have hranked : (dayRanked staff target st d).Nodup := by
    rw [dayRanked]
    exact (sortLt_perm _ _).nodup_iff.mpr
      (nodup_dayPool staff st.duty st.lastWeek target d.weekday d.week h)
  have hnd0 := selectStaff_filter_nodup tagged (dayRanked staff target st d) hranked
  have hndord : ((dayOrdered staff tagged target rand st d).filter
      (fun x => decide (x ≠ UNASSIGNED))).Nodup :=
    (((dayOrdered_perm staff tagged target rand st d).filter _).nodup_iff).mpr hnd0
  rw [hord] at hndord
  have hperm : ([o1, o2, o0] : List String).Perm [o0, o1, o2] :=
    ((List.Perm.swap o0 o2 []).cons o1).trans (List.Perm.swap o0 o1 [o2])
  exact ((hperm.filter (fun x => decide (x ≠ UNASSIGNED))).nodup_iff).mpr hndord

/-- C5: when the roster is empty, the engine reports the configuration error
before any date is processed (the outcome does not depend on the dates) and
produces no assignments and no summary rows. -/
theorem empty_roster_error_signal (dutyDays : List DutyDate) (rand : Nat → Nat) :
    generate_lunch_duty_schedule dutyDays [] rand =
      { errors := [emptyRosterMsg], schedule := [], summary := [] } := rfl

/-- C9: the engine is deterministic in its inputs — two runs with identical
dates, identical roster and the same seeded random stream produce identical
assignment and summary sequences. -/
theorem determinism_fixed_seed (dutyDays : List DutyDate) (staff : List StaffRow)
    (rand₁ rand₂ : Nat → Nat) (h : ∀ n, rand₁ n = rand₂ n) :
    generate_lunch_duty_schedule dutyDays staff rand₁ =
      generate_lunch_duty_schedule dutyDays staff rand₂ := by
  rw [funext h]

theorem determinism_fixed_seed_witness :
    generate_lunch_duty_schedule [⟨"m", .monday, 10⟩]
        [⟨"A", true, true, true, false⟩] (fun _ => 0) =
      generate_lunch_duty_schedule [⟨"m", .monday, 10⟩]
        [⟨"A", true, true, true, false⟩] (fun n => 0 * n) :=
  determinism_fixed_seed [⟨"m", .monday, 10⟩] [⟨"A", true, true, true, false⟩]
    (fun _ => 0) (fun n => 0 * n) (fun n => (Nat.zero_mul n).symm)

/-- C7 counterexample: with an empty dates sequence and the one-member roster
["A"], the summary is not empty — it has one all-zero row, so the claim that
both outputs are empty fails. -/
theorem empty_dates_counterexample :
    (generate_lunch_duty_schedule [] [⟨"A", true, true, true, false⟩]
        (fun _ => 0)).summary ≠ [] := by decide

/-- C7 amended: on an empty dates sequence (non-empty roster) the engine does
not fail and returns no error and an empty assignment sequence, and the
summary is not empty: it holds exactly one all-zero row per staff member (its
name sequence is a permutation of the roster's; with every total tied at 0,
the order of the rows is left to the summary sort's unspecified tie order,
which the program does not guarantee). -/
theorem empty_dates_outputs (staff : List StaffRow) (rand : Nat → Nat)
    (h : staff ≠ []) :
    (generate_lunch_duty_schedule [] staff rand).errors = [] ∧
    (generate_lunch_duty_schedule [] staff rand).schedule = [] ∧
    ((generate_lunch_duty_schedule [] staff rand).summary.map
        (·.staffName)).Perm (staff.map (·.name)) ∧
    ∀ r ∈ (generate_lunch_duty_schedule [] staff rand).summary,
      r.totalDuties = 0 ∧ r.quietRoomDuties = 0 ∧ r.mainRoomDuties = 0 := by
  have hmodel : generate_lunch_duty_schedule [] staff rand =
      { errors := [], schedule := [],
        summary := staff.map (fun s => ⟨s.name, 0, 0, 0⟩) } := by
    rw [generate_lunch_duty_schedule,
      if_neg (by simpa [List.length_eq_zero] using h)]
    simp only [List.foldl_nil]
    have hrows : summaryRows
        ((staff.map (fun s => s.name)).map (fun n => (n, 0)))
        ((staff.map (fun s => s.name)).map (fun n => (n, 0)))
        (staff.map (fun s => s.name)) =
        (staff.map (fun s => s.name)).map (fun n => ⟨n, 0, 0, 0⟩) := by
      rw [summaryRows]
      refine List.map_congr_left (fun n _ => ?_)
      simp only [lookupNat_map_zero]
      rfl
    rw [hrows]
    rw [sortLt_of_forall_false _ _ (fun a ha b hb => ?_), List.map_map]
    · rfl
    · rcases List.mem_map.mp hb with ⟨n, _, hn⟩
      rcases List.mem_map.mp ha with ⟨n', _, hn'⟩
      rw [← hn, ← hn']
      rfl
  refine ⟨by rw [hmodel], by rw [hmodel], ?_, ?_⟩
  · rw [hmodel]
    have hnames : ((staff.map (fun s => (⟨s.name, 0, 0, 0⟩ : SummaryRow))).map
        (·.staffName)) = staff.map (·.name) := by
      rw [List.map_map]
      rfl
    rw [hnames]
  · rw [hmodel]
    intro r hr
    obtain ⟨s, _, heq⟩ := List.mem_map.mp hr
    rw [← heq]
    exact ⟨rfl, rfl, rfl⟩

theorem empty_dates_outputs_witness :
    (generate_lunch_duty_schedule [] [⟨"A", true, true, true, false⟩]
        (fun _ => 0)).errors = [] ∧
    (generate_lunch_duty_schedule [] [⟨"A", true, true, true, false⟩]
        (fun _ => 0)).schedule = [] ∧
    ((generate_lunch_duty_schedule [] [⟨"A", true, true, true, false⟩]
        (fun _ => 0)).summary.map (·.staffName)).Perm
      (([⟨"A", true, true, true, false⟩] : List StaffRow).map (·.name)) ∧
    ∀ r ∈ (generate_lunch_duty_schedule [] [⟨"A", true, true, true, false⟩]
        (fun _ => 0)).summary,
      r.totalDuties = 0 ∧ r.quietRoomDuties = 0 ∧ r.mainRoomDuties = 0 :=
  empty_dates_outputs [⟨"A", true, true, true, false⟩] (fun _ => 0) (by decide)

/-- C2 counterexample: with the ranked pool A,B,C,D and prefer-pairing tags on
C and D, the claimed pipeline commits the provisional pair C,D and then fills
with A, while the engine's actual selection takes A,B,C — so they differ, and
the one-day run on the four-member roster schedules A,B,C rather than the
claimed C,D,A. -/
theorem no_pro_pairing_pass_counterexample :
    selectStaff [] ["A", "B", "C", "D"] = ["A", "B", "C"] ∧
    proPairingSelect ["C", "D"] [] ["A", "B", "C", "D"] = ["C", "D", "A"] ∧
    selectStaff [] ["A", "B", "C", "D"] ≠
      proPairingSelect ["C", "D"] [] ["A", "B", "C", "D"] ∧
    (generate_lunch_duty_schedule [⟨"d", .monday, 1⟩]
        [⟨"A", true, true, true, false⟩, ⟨"B", true, true, true, false⟩,
          ⟨"C", true, true, true, false⟩, ⟨"D", true, true, true, false⟩]
        (fun _ => 0)).schedule =
      [⟨"d", .monday, "C", "A", "B"⟩] := by decide

/-- C2 amended: the engine runs no pro-pairing pass — its per-date selection
over a duplicate-free ranked pool coincides with the specification's pipeline
only in the degenerate case of an empty prefer-pairing set, i.e. it is exactly
the fill pass under the avoid-pairing cap followed by the cap-free relaxation
and the sentinel fill. -/
theorem selection_is_fill_pass_only (tagged pool : List String)
    (h : pool.Nodup) :
    selectStaff tagged pool = proPairingSelect [] tagged pool := by
  rw [selectStaff, proPairingSelect, provisionalPick_nil_prefer]
  simp only [ite_self, List.countP_nil]
  rw [fillFrom_eq_fillGo tagged pool [] 0 h (by simp)]

theorem selection_is_fill_pass_only_witness :
    selectStaff ["B"] ["A", "B", "C"] = proPairingSelect [] ["B"] ["A", "B", "C"] :=
  selection_is_fill_pass_only ["B"] ["A", "B", "C"] (by decide)

/-- C3: `target_duties` is `floor((|dates| * 3) / |roster|)`, computed before
the date loop, and the per-date candidate pool is the three-level cascade:
the strict pool (availability + weekly cooldown + fairness ceiling), then —
if it has fewer than 3 members — availability + fairness ceiling, then — if
still fewer than 3 — availability only. -/
theorem pool_cascade_and_target (dutyDays : List DutyDate)
    (staff : List StaffRow) (duty : List (String × Nat))
    (lastWeek : List (String × Int)) (target : Nat) (wd : Weekday) (wk : Nat) :
    targetDuties dutyDays staff = dutyDays.length * 3 / staff.length ∧
    dayPool staff duty lastWeek target wd wk =
      (if 3 ≤ (strictPool staff duty lastWeek target wd wk).length then
        strictPool staff duty lastWeek target wd wk
      else if 3 ≤ (relaxedPool1 staff duty target wd).length then
        relaxedPool1 staff duty target wd
      else relaxedPool2 staff wd) := by
  refine ⟨rfl, ?_⟩
  rw [dayPool]
  by_cases h1 : (strictPool staff duty lastWeek target wd wk).length < 3
  · simp only [if_pos h1, if_neg (show ¬ 3 ≤
      (strictPool staff duty lastWeek target wd wk).length by omega)]
    by_cases h2 : (relaxedPool1 staff duty target wd).length < 3
    · rw [if_pos h2, if_neg (by omega)]
    · rw [if_neg h2, if_pos (by omega)]
  · simp only [if_neg h1, if_pos (show 3 ≤
      (strictPool staff duty lastWeek target wd wk).length by omega)]

/-! ### Counter-dictionary lemmas (for the fairness analysis) -/

lemma bumpNat_cons (a : String) (b : Nat) (ps : List (String × Nat)) (k : String) :
    bumpNat ((a, b) :: ps) k =
      (if (a == k) = true then (a, b + 1) else (a, b)) :: bumpNat ps k := rfl

lemma setInt_cons (a : String) (b : Int) (ps : List (String × Int)) (k : String)
    (v : Int) :
    setInt ((a, b) :: ps) k v =
      (if (a == k) = true then (a, v) else (a, b)) :: setInt ps k v := rfl

lemma lookupNat_cons (a : String) (b : Nat) (ps : List (String × Nat)) (k : String) :
    lookupNat ((a, b) :: ps) k = if (a == k) = true then b else lookupNat ps k := by
  rw [lookupNat]
  by_cases h : (a == k) = true
  · rw [@List.find?_cons_of_pos _ (fun q => q.1 == k) (a, b) ps h, if_pos h]
  · rw [@List.find?_cons_of_neg _ (fun q => q.1 == k) (a, b) ps h, if_neg h,
      lookupNat]

lemma lookupInt_cons (a : String) (b : Int) (ps : List (String × Int)) (k : String) :
    lookupInt ((a, b) :: ps) k = if (a == k) = true then b else lookupInt ps k := by
  rw [lookupInt]
  by_cases h : (a == k) = true
  · rw [@List.find?_cons_of_pos _ (fun q => q.1 == k) (a, b) ps h, if_pos h]
  · rw [@List.find?_cons_of_neg _ (fun q => q.1 == k) (a, b) ps h, if_neg h,
      lookupInt]

lemma map_fst_bumpNat (k : String) :
    ∀ m : List (String × Nat), (bumpNat m k).map Prod.fst = m.map Prod.fst := by
  intro m
  induction m with
  | nil => rfl
  | cons p ps ih =>
    obtain ⟨a, b⟩ := p
    rw [bumpNat_cons, List.map_cons, List.map_cons]
    by_cases h : (a == k) = true
    · rw [if_pos h, ih]
    · rw [if_neg h, ih]

lemma map_fst_setInt (k : String) (v : Int) :
    ∀ m : List (String × Int), (setInt m k v).map Prod.fst = m.map Prod.fst := by
  intro m
  induction m with
  | nil => rfl
  | cons p ps ih =>
    obtain ⟨a, b⟩ := p
    rw [setInt_cons, List.map_cons, List.map_cons]
    by_cases h : (a == k) = true
    · rw [if_pos h, ih]
    · rw [if_neg h, ih]

lemma applyDuty_map_fst (wk : Nat) :
    ∀ (l : List String) (duty : List (String × Nat)) (lw : List (String × Int)),
      (applyDuty wk l duty lw).1.map Prod.fst = duty.map Prod.fst ∧
      (applyDuty wk l duty lw).2.map Prod.fst = lw.map Prod.fst := by
  intro l
  induction l with
  | nil => intro duty lw; exact ⟨rfl, rfl⟩
  | cons s rest ih =>
    intro duty lw
    rw [applyDuty]
    by_cases hs : (s == UNASSIGNED) = true
    · rw [if_pos hs]; exact ih duty lw
    · rw [if_neg hs]
      obtain ⟨h1, h2⟩ := ih (bumpNat duty s) (setInt lw s (wk : Int))
      exact ⟨h1.trans (map_fst_bumpNat s duty),
        h2.trans (map_fst_setInt s (wk : Int) lw)⟩

lemma lookupNat_bumpNat_self (k : String) :
    ∀ m : List (String × Nat), k ∈ m.map Prod.fst →
      lookupNat (bumpNat m k) k = lookupNat m k + 1 := by
  intro m
  induction m with
  | nil => intro h; simp at h
  | cons p ps ih =>
    intro h
    obtain ⟨a, b⟩ := p
    rw [bumpNat_cons]
    by_cases hp : (a == k) = true
    · rw [if_pos hp, lookupNat_cons, lookupNat_cons, if_pos hp, if_pos hp]
    · rw [if_neg hp, lookupNat_cons, lookupNat_cons, if_neg hp, if_neg hp]
      apply ih
      rw [List.map_cons] at h
      rcases List.mem_cons.mp h with hh | hh
      · have ha : a = k := hh.symm
        exact absurd (beq_iff_eq.mpr ha) hp
      · exact hh

lemma lookupNat_bumpNat_other (k nm : String) (h : nm ≠ k) :
    ∀ m : List (String × Nat), lookupNat (bumpNat m k) nm = lookupNat m nm := by
  intro m
  induction m with
  | nil => rfl
  | cons p ps ih =>
    obtain ⟨a, b⟩ := p
    rw [bumpNat_cons]
    by_cases hp : (a == k) = true
    · have hpk : a = k := beq_iff_eq.mp hp
      have hcond : ¬ (a == nm) = true := by
        intro hc
        exact h ((beq_iff_eq.mp hc) ▸ hpk)
      rw [if_pos hp, lookupNat_cons, lookupNat_cons, if_neg hcond, if_neg hcond]
      exact ih
    · rw [if_neg hp, lookupNat_cons, lookupNat_cons]
      by_cases hq : (a == nm) = true
      · rw [if_pos hq, if_pos hq]
      · rw [if_neg hq, if_neg hq]
        exact ih

lemma lookupInt_setInt_cases (k : String) (v : Int) (nm : String) :
    ∀ m : List (String × Int),
      lookupInt (setInt m k v) nm = v ∨
      lookupInt (setInt m k v) nm = lookupInt m nm := by
  intro m
  induction m with
  | nil => exact Or.inr rfl
  | cons p ps ih =>
    obtain ⟨a, b⟩ := p
    rw [setInt_cons]
    by_cases hp : (a == k) = true
    · rw [if_pos hp, lookupInt_cons, lookupInt_cons]
      by_cases hq : (a == nm) = true
      · rw [if_pos hq, if_pos hq]
        exact Or.inl rfl
      · rw [if_neg hq, if_neg hq]
        exact ih
    · rw [if_neg hp, lookupInt_cons, lookupInt_cons]
      by_cases hq : (a == nm) = true
      · rw [if_pos hq, if_pos hq]
        exact Or.inr rfl
      · rw [if_neg hq, if_neg hq]
        exact ih

lemma lookupNat_applyDuty (wk : Nat) :
    ∀ (l : List String) (duty : List (String × Nat)) (lw : List (String × Int))
      (nm : String), nm ∈ duty.map Prod.fst → nm ≠ UNASSIGNED →
      lookupNat (applyDuty wk l duty lw).1 nm = lookupNat duty nm + l.count nm := by
  intro l
  induction l with
  | nil => intro duty lw nm _ _; simp [applyDuty]
  | cons s rest ih =>
    intro duty lw nm hmem hne
    rw [applyDuty]
    by_cases hs : (s == UNASSIGNED) = true
    · rw [if_pos hs]
      have hsu : s = UNASSIGNED := by simpa using hs
      have hne1 : (nm == s) = false := by
        simp only [beq_eq_false_iff_ne, ne_eq]
        rw [hsu]
        exact hne
      have hne2 : (s == nm) = false := by
        simp only [beq_eq_false_iff_ne, ne_eq]
        intro hc
        exact hne (hsu ▸ hc.symm)
      have hcount : (s :: rest).count nm = rest.count nm := by
        simp [List.count_cons, hne1, hne2]
      rw [hcount]
      exact ih duty lw nm hmem hne
    · rw [if_neg hs]
      have hkeys : nm ∈ (bumpNat duty s).map Prod.fst := by
        rw [map_fst_bumpNat]; exact hmem
      rw [ih (bumpNat duty s) (setInt lw s (wk : Int)) nm hkeys hne]
      by_cases hnm : nm = s
      · rw [hnm, lookupNat_bumpNat_self s duty (hnm ▸ hmem)]
        have hcount : (s :: rest).count s = rest.count s + 1 := by
          simp [List.count_cons]
        rw [hcount]
        omega
      · rw [lookupNat_bumpNat_other s nm hnm duty]
        have hne1 : (nm == s) = false := by
          simp only [beq_eq_false_iff_ne, ne_eq]; exact hnm
        have hne2 : (s == nm) = false := by
          simp only [beq_eq_false_iff_ne, ne_eq]
          intro hc
          exact hnm hc.symm
        have hcount : (s :: rest).count nm = rest.count nm := by
          simp [List.count_cons, hne1, hne2]
        rw [hcount]

lemma lookupInt_applyDuty_cases (wk : Nat) :
    ∀ (l : List String) (duty : List (String × Nat)) (lw : List (String × Int))
      (nm : String),
      lookupInt (applyDuty wk l duty lw).2 nm = (wk : Int) ∨
      lookupInt (applyDuty wk l duty lw).2 nm = lookupInt lw nm := by
  intro l
  induction l with
  | nil => intro duty lw nm; exact Or.inr rfl
  | cons s rest ih =>
    intro duty lw nm
    rw [applyDuty]
    by_cases hs : (s == UNASSIGNED) = true
    · rw [if_pos hs]; exact ih duty lw nm
    · rw [if_neg hs]
      rcases ih (bumpNat duty s) (setInt lw s (wk : Int)) nm with h | h
      · exact Or.inl h
      · rw [h]
        exact lookupInt_setInt_cases s (wk : Int) nm lw

lemma lookupInt_map_const (names : List String) (v : Int) (nm : String)
    (h : nm ∈ names) :
    lookupInt (names.map (fun n => (n, v))) nm = v := by
  induction names with
  | nil => simp at h
  | cons n ns ih =>
    rw [List.map_cons, lookupInt, List.find?_cons]
    by_cases hn : ((n, v).1 == nm) = true
    · simp [hn]
    · simp only [hn, Bool.false_eq_true, if_false]
      have hm : nm ∈ ns := by
        rcases List.mem_cons.mp h with hh | hh
        · exact absurd (by simp [hh] : ((n, v).1 == nm) = true) hn
        · exact hh
      have := ih hm
      rw [lookupInt] at this
      exact this

lemma lookupNat_map_zero_mem (names : List String) (nm : String) :
    lookupNat (names.map (fun n => (n, 0))) nm = 0 :=
  lookupNat_map_zero names nm

/-! ### The tag-free selection takes the first three of the ranked pool -/

lemma fillGo_no_tagged :
    ∀ (pool sel : List String) (tc : Nat),
      fillGo [] pool sel tc = sel ++ pool.take (3 - sel.length) := by
  intro pool
  induction pool with
  | nil => intro sel tc; simp [fillGo]
  | cons s rest ih =>
    intro sel tc
    rw [fillGo]
    by_cases h3 : 3 ≤ sel.length
    · rw [if_pos h3]
      have : 3 - sel.length = 0 := by omega
      rw [this, List.take_zero, List.append_nil]
    · rw [if_neg h3]
      simp only [List.contains, List.elem_nil, Bool.false_eq_true, if_false]
      rw [ih (sel ++ [s]) tc, List.append_assoc]
      have hlen : (sel ++ [s]).length = sel.length + 1 := by
        rw [List.length_append, List.length_singleton]
      rw [hlen]
      have htake : (s :: rest).take (3 - sel.length) =
          s :: rest.take (3 - (sel.length + 1)) := by
        have : 3 - sel.length = (3 - (sel.length + 1)) + 1 := by omega
        rw [this, List.take_succ_cons]
      rw [htake]
      rfl

lemma relaxFill_of_subset :
    ∀ (pool sel : List String), (∀ s ∈ pool, s ∈ sel) →
      relaxFill pool sel = sel := by
  intro pool
  induction pool with
  | nil => intro sel _; rfl
  | cons s rest ih =>
    intro sel h
    rw [relaxFill]
    have hc : sel.contains s = true := by
      simp only [List.contains, List.elem_eq_mem, decide_eq_true_eq]
      exact h s (by simp)
    rw [if_pos hc]
    exact ih sel (fun u hu => h u (by simp [hu]))

lemma selectStaff_no_tagged (pool : List String) :
    selectStaff [] pool =
      pool.take 3 ++ List.replicate (3 - (pool.take 3).length) UNASSIGNED := by
  rw [selectStaff, fillGo_no_tagged pool [] 0]
  simp only [List.nil_append, List.length_nil, Nat.sub_zero]
  by_cases hlen : (pool.take 3).length < 3
  · rw [if_pos hlen]
    have hshort : pool.length < 3 := by
      rw [List.length_take] at hlen
      omega
    have htake : pool.take 3 = pool := List.take_of_length_le (by omega)
    rw [htake, relaxFill_of_subset pool pool (fun s hs => hs)]
  · rw [if_neg hlen]

/-! ### Sum lemmas for the fairness count -/

lemma sum_map_add (f g : α → Nat) :
    ∀ l : List α, (l.map (fun x => f x + g x)).sum = (l.map f).sum + (l.map g).sum := by
  intro l
  induction l with
  | nil => rfl
  | cons a t ih =>
    simp only [List.map_cons, List.sum_cons, ih]
    omega

lemma sum_indicator_not_mem (t : String) :
    ∀ names : List String, t ∉ names →
      (names.map (fun nm => if (t == nm) = true then 1 else 0)).sum = 0 := by
  intro names
  induction names with
  | nil => intro _; rfl
  | cons n ns ih =>
    intro h
    have hn : (t == n) = false := by
      simp only [beq_eq_false_iff_ne, ne_eq]
      intro hc
      exact h (by simp [hc])
    simp only [List.map_cons, List.sum_cons, hn, Bool.false_eq_true, if_false,
      Nat.zero_add]
    exact ih (fun hc => h (by simp [hc]))

lemma sum_indicator_mem (t : String) :
    ∀ names : List String, names.Nodup → t ∈ names →
      (names.map (fun nm => if (t == nm) = true then 1 else 0)).sum = 1 := by
  intro names
  induction names with
  | nil => intro _ h; simp at h
  | cons n ns ih =>
    intro hnod h
    rcases List.mem_cons.mp h with heq | hmem
    · have hn : (t == n) = true := by simp [heq]
      simp only [List.map_cons, List.sum_cons, hn, if_pos]
      have : t ∉ ns := heq ▸ (List.nodup_cons.mp hnod).1
      rw [sum_indicator_not_mem t ns this]
    · have hn : (t == n) = false := by
        simp only [beq_eq_false_iff_ne, ne_eq]
        intro hc
        exact (List.nodup_cons.mp hnod).1 (hc ▸ hmem)
      simp only [List.map_cons, List.sum_cons, hn, Bool.false_eq_true, if_false,
        Nat.zero_add]
      exact ih (List.nodup_cons.mp hnod).2 hmem

lemma sum_counts (names : List String) (hnod : names.Nodup) :
    ∀ T : List String, (∀ x ∈ T, x ∈ names) →
      (names.map (fun nm => T.count nm)).sum = T.length := by
  intro T
  induction T with
  | nil => intro _; simp
  | cons t T' ih =>
    intro h
    have hcount : ∀ nm, (t :: T').count nm =
        T'.count nm + (if (t == nm) = true then 1 else 0) := by
      intro nm
      rw [List.count_cons]
    have hmapeq : names.map (fun nm => (t :: T').count nm) =
        names.map (fun nm => T'.count nm + (if (t == nm) = true then 1 else 0)) :=
      List.map_congr_left (fun nm _ => hcount nm)
    rw [hmapeq, sum_map_add, ih (fun x hx => h x (by simp [hx])),
      sum_indicator_mem t names hnod (h t (by simp)), List.length_cons]

/-- C1: availability is never violated — every non-sentinel name placed in
any of the three slots of any emitted assignment belongs to a staff member
whose availability flag for that date's weekday is set, unconditionally,
whatever relaxation steps were taken. -/
theorem availability_never_violated (dutyDays : List DutyDate)
    (staff : List StaffRow) (rand : Nat → Nat)
    (h : (staff.map (·.name)).Nodup) :
    AvailabilityRespected staff
      (generate_lunch_duty_schedule dutyDays staff rand) := by
  intro a ha x hx hxu s hs hsname
  rw [generate_lunch_duty_schedule] at ha
  by_cases hemp : staff.length = 0
  · rw [if_pos hemp] at ha
    exact absurd ha (List.not_mem_nil a)
  · rw [if_neg hemp] at ha
    have ha' : a ∈ (List.foldl (processDay staff
        ((staff.filter (fun s => s.avoidTag)).map (fun s => s.name))
        (targetDuties dutyDays staff) rand)
        ⟨(staff.map (fun s => s.name)).map (fun n => (n, 0)),
          (staff.map (fun s => s.name)).map (fun n => (n, 0)),
          (staff.map (fun s => s.name)).map (fun n => (n, (-10 : Int))), 0, []⟩
        dutyDays).sched.reverse := ha
    rw [List.mem_reverse] at ha'
    rcases mem_foldl_sched staff _ _ rand dutyDays _ a ha' with h0 | hfound
    · exact absurd h0 (List.not_mem_nil a)
    · obtain ⟨d, hd, st', heq⟩ := hfound
      rw [heq] at hx
      rcases dayAssignment_slot_mem staff _ _ rand st' d x hx with hu | hord
      · exact absurd hu hxu
      · rcases dayOrdered_mem staff _ _ rand st' d x hord with hst | hu
        · obtain ⟨s₀, hs₀, hs₀name, hav⟩ := hst
          have hss : s = s₀ :=
            List.inj_on_of_nodup_map h hs hs₀ (by rw [hsname, hs₀name])
          rw [heq, dayAssignment_dayOfWeek, hss]
          exact hav
        · exact absurd hu hxu

theorem availability_never_violated_witness :
    AvailabilityRespected
      [⟨"A", true, false, true, false⟩, ⟨"B", true, true, true, true⟩]
      (generate_lunch_duty_schedule
        [⟨"m", .monday, 10⟩, ⟨"t", .tuesday, 10⟩]
        [⟨"A", true, false, true, false⟩, ⟨"B", true, true, true, true⟩]
        (fun _ => 0)) :=
  availability_never_violated
    [⟨"m", .monday, 10⟩, ⟨"t", .tuesday, 10⟩]
    [⟨"A", true, false, true, false⟩, ⟨"B", true, true, true, true⟩]
    (fun _ => 0) (by decide)

/-- C10: in every emitted assignment, the non-sentinel names among the three
slots are pairwise distinct (for a roster with unique names, regardless of
how far the relaxation cascade was pushed). -/
theorem slots_pairwise_distinct (dutyDays : List DutyDate)
    (staff : List StaffRow) (rand : Nat → Nat)
    (h : (staff.map (·.name)).Nodup) :
    SlotsDistinct (generate_lunch_duty_schedule dutyDays staff rand) := by
  intro a ha
  rw [generate_lunch_duty_schedule] at ha
  by_cases hemp : staff.length = 0
  · rw [if_pos hemp] at ha
    exact absurd ha (List.not_mem_nil a)
  · rw [if_neg hemp] at ha
    have ha' : a ∈ (List.foldl (processDay staff
        ((staff.filter (fun s => s.avoidTag)).map (fun s => s.name))
        (targetDuties dutyDays staff) rand)
        ⟨(staff.map (fun s => s.name)).map (fun n => (n, 0)),
          (staff.map (fun s => s.name)).map (fun n => (n, 0)),
          (staff.map (fun s => s.name)).map (fun n => (n, (-10 : Int))), 0, []⟩
        dutyDays).sched.reverse := ha
    rw [List.mem_reverse] at ha'
    rcases mem_foldl_sched staff _ _ rand dutyDays _ a ha' with h0 | hfound
    · exact absurd h0 (List.not_mem_nil a)
    · obtain ⟨d, hd, st', heq⟩ := hfound
      rw [heq]
      exact dayAssignment_filter_nodup staff _ _ rand st' d h

theorem slots_pairwise_distinct_witness :
    SlotsDistinct
      (generate_lunch_duty_schedule [⟨"m", .monday, 10⟩]
        [⟨"A", true, true, true, false⟩, ⟨"B", true, true, true, false⟩]
        (fun _ => 0)) :=
  slots_pairwise_distinct [⟨"m", .monday, 10⟩]
    [⟨"A", true, true, true, false⟩, ⟨"B", true, true, true, false⟩]
    (fun _ => 0) (by decide)

/-- C6 amended: the role-assignment re-sort orders the three selected entries
ascending by quiet-room count with the sentinel keyed as the constant 999
(not as a value above every possible count); consequently, whenever the
selection contains a real name whose quiet-room count is below 999, the
quiet-room slot is not a sentinel. -/
theorem quiet_room_role_sort (quiet : List (String × Nat)) (sel : List String) :
    quietKey quiet UNASSIGNED = 999 ∧
    (roleOrder quiet sel).Pairwise
      (fun a b => quietKey quiet a ≤ quietKey quiet b) ∧
    ((∃ x ∈ sel, x ≠ UNASSIGNED ∧ lookupNat quiet x < 999) →
      (roleOrder quiet sel).headD UNASSIGNED ≠ UNASSIGNED) := by
  have hA : ∀ a b : String,
      (decide (quietKey quiet a < quietKey quiet b)) = true →
      (decide (quietKey quiet b < quietKey quiet a)) = false := by
    intro a b h
    simp only [decide_eq_true_eq] at h
    simp only [decide_eq_false_iff_not]
    omega
  have hN : ∀ a b c : String,
      (decide (quietKey quiet b < quietKey quiet a)) = false →
      (decide (quietKey quiet c < quietKey quiet b)) = false →
      (decide (quietKey quiet c < quietKey quiet a)) = false := by
    intro a b c h1 h2
    simp only [decide_eq_false_iff_not] at *
    omega
  have hpair := pairwise_sortLt
    (fun a b => decide (quietKey quiet a < quietKey quiet b)) hA hN sel
  refine ⟨rfl, hpair.imp (fun h => ?_), fun hex hhd => ?_⟩
  · simp only [decide_eq_false_iff_not] at h
    omega
  · obtain ⟨x, hx, hxu, hxk⟩ := hex
    have hxmem : x ∈ roleOrder quiet sel := by
      rw [roleOrder, mem_sortLt]
      exact hx
    cases hro : roleOrder quiet sel with
    | nil => rw [hro] at hxmem; simp at hxmem
    | cons hd tl =>
      rw [hro] at hxmem hhd
      simp only [List.headD_cons] at hhd
      have hxtl : x ∈ tl := by
        rcases List.mem_cons.mp hxmem with hxhd | hxtl
        · exact absurd (hxhd.trans hhd) hxu
        · exact hxtl
      have hpair' := hpair
      rw [roleOrder] at hro
      rw [hro, List.pairwise_cons] at hpair'
      have hle := hpair'.1 x hxtl
      simp only [decide_eq_false_iff_not, Nat.not_lt] at hle
      rw [hhd] at hle
      have h999 : quietKey quiet UNASSIGNED = 999 := rfl
      have hxkey : quietKey quiet x = lookupNat quiet x := by
        rw [quietKey, if_neg]
        simp only [beq_iff_eq]
        exact hxu
      omega

theorem quiet_room_role_sort_witness :
    (roleOrder [("A", 0)] ["A", UNASSIGNED]).headD UNASSIGNED ≠ UNASSIGNED :=
  (quiet_room_role_sort [("A", 0)] ["A", UNASSIGNED]).2.2 (by decide)

/-! ### The sentinel role-sort key is not above every reachable quiet-room count

A single staff member scheduled for 1000 duty days accumulates a quiet-room
count of 999 after 999 days; on day 1000 their role-sort key ties the
sentinel's constant 999 and the shuffle decides, here putting the sentinel in
the quiet room while the real name goes to a main room.  The run is evaluated
by a symbolic step lemma (`c6_step`), an induction over the first 999 days
(`c6_run`) and one concrete final step (`c6_final`). -/

/-- The duty day used by the 1000-day run (any fixed Monday). -/
def c6Date : DutyDate := ⟨"d", .monday, 1⟩

/-- The one-member roster of the 1000-day run. -/
def c6Staff : List StaffRow := [⟨"X", true, true, true, false⟩]

/-- The record emitted on each of the first 999 days. -/
def c6Rec : Assignment := ⟨"d", .monday, "UNASSIGNED", "UNASSIGNED", "X"⟩

/-- The engine state after `k` of the first 999 days. -/
def c6State (k : Nat) : LoopState :=
  ⟨[("X", k)], [("X", k)], [("X", (1 : Int))], 2 * k, List.replicate k c6Rec⟩

lemma c6_step (q r : Nat) (sc : List Assignment) (hq : q < 999) :
    processDay c6Staff [] 3000 (fun _ => 0)
      ⟨[("X", q)], [("X", q)], [("X", (1 : Int))], r, sc⟩ c6Date =
      ⟨[("X", q + 1)], [("X", q + 1)], [("X", (1 : Int))], r + 2, c6Rec :: sc⟩ := by
  have h3000 : decide (q ≤ 3000) = true := decide_eq_true (by omega)
  have h999 : decide (q < 999) = true := decide_eq_true hq
  have hpool : dayPool c6Staff [("X", q)] [("X", (1 : Int))] 3000 .monday 1 = ["X"] := by
    simp [dayPool, strictPool, relaxedPool1, relaxedPool2, lookupNat, lookupInt,
      c6Staff, StaffRow.avail, h3000]
  have hsel : daySelected c6Staff [] 3000
      ⟨[("X", q)], [("X", q)], [("X", (1 : Int))], r, sc⟩ ⟨"d", .monday, 1⟩ =
      ["X", "UNASSIGNED", "UNASSIGNED"] := by
    dsimp only [daySelected, dayRanked]
    rw [hpool]
    simp [sortLt, insertLt, selectStaff, fillGo, relaxFill, UNASSIGNED]
  have hshuf : pyShuffle (fun _ => 0) ["X", "UNASSIGNED", "UNASSIGNED"] r =
      (["UNASSIGNED", "UNASSIGNED", "X"], r + 2) := by
    simp [pyShuffle, shuffleAux, swapIdx]
  have hord : dayOrdered c6Staff [] 3000 (fun _ => 0)
      ⟨[("X", q)], [("X", q)], [("X", (1 : Int))], r, sc⟩ ⟨"d", .monday, 1⟩ =
      ["X", "UNASSIGNED", "UNASSIGNED"] := by
    dsimp only [dayOrdered]
    rw [hsel, hshuf]
    simp [roleOrder, sortLt, insertLt, quietKey, lookupNat, UNASSIGNED, h999]
  have hassign : dayAssignment c6Staff [] 3000 (fun _ => 0)
      ⟨[("X", q)], [("X", q)], [("X", (1 : Int))], r, sc⟩ ⟨"d", .monday, 1⟩ = c6Rec := by
    dsimp only [dayAssignment]
    rw [hord]
    simp [c6Rec]
  have happly : applyDuty 1 ["X", "UNASSIGNED", "UNASSIGNED"] [("X", q)] [("X", (1 : Int))] =
      ([("X", q + 1)], [("X", (1 : Int))]) := by
    simp [applyDuty, bumpNat, setInt, UNASSIGNED]
  dsimp only [processDay, c6Date]
  rw [hord, hsel, hshuf, hassign, happly]
  simp [bumpNat, UNASSIGNED]

set_option maxHeartbeats 1000000 in
lemma c6_run : ∀ (k q : Nat), q + k ≤ 999 →
    List.foldl (processDay c6Staff [] 3000 (fun _ => 0)) (c6State q)
      (List.replicate k c6Date) = c6State (q + k) := by
  intro k
  induction k with
  | zero => intro q _; rfl
  | succ n ih =>
    intro q hqk
    rw [List.replicate_succ, List.foldl_cons]
    have hstep : processDay c6Staff [] 3000 (fun _ => 0) (c6State q) c6Date =
        c6State (q + 1) := by
      have h := c6_step q (2 * q) (List.replicate q c6Rec) (by omega)
      simp only [c6State]
      rw [h]
      have h2 : 2 * q + 2 = 2 * (q + 1) := by omega
      rw [h2, ← List.replicate_succ]
    rw [hstep, ih (q + 1) (by omega)]
    congr 1
    omega

lemma c6_step0 :
    processDay c6Staff [] 3000 (fun _ => 0)
      ⟨[("X", 0)], [("X", 0)], [("X", (-10 : Int))], 0, []⟩ c6Date = c6State 1 := by
  decide

lemma c6_final (r : Nat) (sc : List Assignment) :
    processDay c6Staff [] 3000 (fun _ => 0)
      ⟨[("X", 999)], [("X", 999)], [("X", (1 : Int))], r, sc⟩ c6Date =
      ⟨[("X", 1000)], [("X", 999)], [("X", (1 : Int))], r + 2,
        (⟨"d", .monday, "UNASSIGNED", "X", "UNASSIGNED"⟩ : Assignment) :: sc⟩ := by
  have hpool : dayPool c6Staff [("X", 999)] [("X", (1 : Int))] 3000 .monday 1 = ["X"] := by
    simp [dayPool, strictPool, relaxedPool1, relaxedPool2, lookupNat, lookupInt,
      c6Staff, StaffRow.avail]
  have hsel : daySelected c6Staff [] 3000
      ⟨[("X", 999)], [("X", 999)], [("X", (1 : Int))], r, sc⟩ ⟨"d", .monday, 1⟩ =
      ["X", "UNASSIGNED", "UNASSIGNED"] := by
    dsimp only [daySelected, dayRanked]
    rw [hpool]
    simp [sortLt, insertLt, selectStaff, fillGo, relaxFill, UNASSIGNED]
  have hshuf : pyShuffle (fun _ => 0) ["X", "UNASSIGNED", "UNASSIGNED"] r =
      (["UNASSIGNED", "UNASSIGNED", "X"], r + 2) := by
    simp [pyShuffle, shuffleAux, swapIdx]
  have hord : dayOrdered c6Staff [] 3000 (fun _ => 0)
      ⟨[("X", 999)], [("X", 999)], [("X", (1 : Int))], r, sc⟩ ⟨"d", .monday, 1⟩ =
      ["UNASSIGNED", "UNASSIGNED", "X"] := by
    dsimp only [dayOrdered]
    rw [hsel, hshuf]
    simp [roleOrder, sortLt, insertLt, quietKey, lookupNat, UNASSIGNED]
  have hassign : dayAssignment c6Staff [] 3000 (fun _ => 0)
      ⟨[("X", 999)], [("X", 999)], [("X", (1 : Int))], r, sc⟩ ⟨"d", .monday, 1⟩ =
      ⟨"d", .monday, "UNASSIGNED", "X", "UNASSIGNED"⟩ := by
    dsimp only [dayAssignment]
    rw [hord]
    simp
  have happly : applyDuty 1 ["UNASSIGNED", "UNASSIGNED", "X"] [("X", 999)] [("X", (1 : Int))] =
      ([("X", 1000)], [("X", (1 : Int))]) := by
    simp [applyDuty, bumpNat, setInt, UNASSIGNED]
  dsimp only [processDay, c6Date]
  rw [hord, hsel, hshuf, hassign, happly]
  simp [bumpNat, UNASSIGNED]

set_option maxHeartbeats 1000000 in
set_option maxRecDepth 10000 in
/-- C6 counterexample: on 1000 duty days with the one-member roster ["X"],
the last emitted assignment places the real staff name "X" in a main-room
slot while the quiet room gets the sentinel — the selection contains a real
name yet the quiet-room slot is a sentinel, because the sentinel's role-sort
key 999 is not above X's accumulated quiet-room count of 999. -/
theorem quiet_room_sentinel_counterexample :
    (generate_lunch_duty_schedule (List.replicate 1000 c6Date) c6Staff
        (fun _ => 0)).schedule.getLast? =
      some ⟨"d", .monday, "UNASSIGNED", "X", "UNASSIGNED"⟩ ∧
    "X" ∈ c6Staff.map (·.name) := by
  refine ⟨?_, by decide⟩
  rw [generate_lunch_duty_schedule, if_neg (by decide)]
  have htarget : targetDuties (List.replicate 1000 c6Date) c6Staff = 3000 := by
    simp [targetDuties, c6Staff]
  have htagged : List.map (fun x => x.name) (List.filter (fun x => x.avoidTag) c6Staff) =
      ([] : List String) := by decide
  have hnames : List.map (fun x => x.name) c6Staff = ["X"] := by decide
  simp only [htarget, htagged, hnames, List.map_cons, List.map_nil]
  have hsplit : List.replicate 1000 c6Date =
      c6Date :: (List.replicate 998 c6Date ++ List.replicate 1 c6Date) := by
    rw [← List.replicate_add]
    show List.replicate (999 + 1) c6Date = _
    rw [List.replicate_succ]
  rw [hsplit, List.foldl_cons, List.foldl_append]
  rw [c6_step0]
  rw [c6_run 998 1 (by omega)]
  rw [show (1 : Nat) + 998 = 999 from rfl]
  rw [show List.replicate 1 c6Date = [c6Date] from rfl, List.foldl_cons, List.foldl_nil]
  rw [show c6State 999 = ⟨[("X", 999)], [("X", 999)], [("X", (1 : Int))], 2 * 999,
    List.replicate 999 c6Rec⟩ from rfl]
  rw [c6_final]
  rw [show (⟨[("X", 1000)], [("X", 999)], [("X", (1 : Int))], 2 * 999 + 2,
      (⟨"d", .monday, "UNASSIGNED", "X", "UNASSIGNED"⟩ : Assignment) ::
        List.replicate 999 c6Rec⟩ : LoopState).sched =
    (⟨"d", .monday, "UNASSIGNED", "X", "UNASSIGNED"⟩ : Assignment) ::
      List.replicate 999 c6Rec from rfl]
  rw [List.getLast?_reverse]
  rfl

/-! ### The fairness bound: balanced duty counts under pairwise-distinct weeks -/

lemma processDay_duty (staff : List StaffRow) (tagged : List String)
    (target : Nat) (rand : Nat → Nat) (st : LoopState) (d : DutyDate) :
    (processDay staff tagged target rand st d).duty =
      (applyDuty d.week (dayOrdered staff tagged target rand st d)
        st.duty st.lastWeek).1 := by
  rw [processDay]

lemma processDay_lastWeek (staff : List StaffRow) (tagged : List String)
    (target : Nat) (rand : Nat → Nat) (st : LoopState) (d : DutyDate) :
    (processDay staff tagged target rand st d).lastWeek =
      (applyDuty d.week (dayOrdered staff tagged target rand st d)
        st.duty st.lastWeek).2 := by
  rw [processDay]

lemma keyLt_iff (duty quiet : List (String × Nat)) (a b : String) :
    keyLt duty quiet a b = true ↔
      (lookupNat duty a < lookupNat duty b ∨
        (lookupNat duty a = lookupNat duty b ∧
          lookupNat quiet a < lookupNat quiet b)) := by
  rw [keyLt]
  simp [Bool.or_eq_true, Bool.and_eq_true, decide_eq_true_eq, beq_iff_eq]

lemma keyLt_false_iff (duty quiet : List (String × Nat)) (a b : String) :
    keyLt duty quiet a b = false ↔
      ¬(lookupNat duty a < lookupNat duty b ∨
        (lookupNat duty a = lookupNat duty b ∧
          lookupNat quiet a < lookupNat quiet b)) := by
  constructor
  · intro h hc
    have := (keyLt_iff duty quiet a b).mpr hc
    rw [h] at this
    exact absurd this (by simp)
  · intro h
    cases hk : keyLt duty quiet a b
    · rfl
    · exact absurd ((keyLt_iff duty quiet a b).mp hk) h

lemma keyLt_asymm (duty quiet : List (String × Nat)) :
    ∀ a b, keyLt duty quiet a b = true → keyLt duty quiet b a = false := by
  intro a b h
  rw [keyLt_iff] at h
  rw [keyLt_false_iff]
  omega

lemma keyLt_negtrans (duty quiet : List (String × Nat)) :
    ∀ a b c, keyLt duty quiet b a = false → keyLt duty quiet c b = false →
      keyLt duty quiet c a = false := by
  intro a b c h1 h2
  rw [keyLt_false_iff] at h1 h2 ⊢
  omega

lemma strictPool_all (staff : List StaffRow) (duty : List (String × Nat))
    (lastWeek : List (String × Int)) (target : Nat) (wd : Weekday) (wk : Nat)
    (havail : ∀ s ∈ staff, s.avail wd = true)
    (hweek : ∀ s ∈ staff, lookupInt lastWeek s.name ≠ (wk : Int))
    (hcnt : ∀ s ∈ staff, lookupNat duty s.name ≤ target) :
    strictPool staff duty lastWeek target wd wk = staff.map (·.name) := by
  rw [strictPool]
  have hfil : staff.filter (fun s =>
      s.avail wd && decide (lookupInt lastWeek s.name ≠ (wk : Int)) &&
        decide (lookupNat duty s.name ≤ target)) = staff :=
    List.filter_eq_self.mpr (fun s hs => by
      simp [havail s hs, hweek s hs, hcnt s hs])
  rw [hfil]

lemma relaxedPool1_all (staff : List StaffRow) (duty : List (String × Nat))
    (target : Nat) (wd : Weekday)
    (havail : ∀ s ∈ staff, s.avail wd = true)
    (hcnt : ∀ s ∈ staff, lookupNat duty s.name ≤ target) :
    relaxedPool1 staff duty target wd = staff.map (·.name) := by
  rw [relaxedPool1]
  have hfil : staff.filter (fun s =>
      s.avail wd && decide (lookupNat duty s.name ≤ target)) = staff :=
    List.filter_eq_self.mpr (fun s hs => by simp [havail s hs, hcnt s hs])
  rw [hfil]

lemma relaxedPool2_all (staff : List StaffRow) (wd : Weekday)
    (havail : ∀ s ∈ staff, s.avail wd = true) :
    relaxedPool2 staff wd = staff.map (·.name) := by
  rw [relaxedPool2]
  have hfil : staff.filter (fun s => s.avail wd) = staff :=
    List.filter_eq_self.mpr (fun s hs => by simp [havail s hs])
  rw [hfil]

lemma dayPool_all (staff : List StaffRow) (duty : List (String × Nat))
    (lastWeek : List (String × Int)) (target : Nat) (wd : Weekday) (wk : Nat)
    (havail : ∀ s ∈ staff, s.avail wd = true)
    (hweek : ∀ s ∈ staff, lookupInt lastWeek s.name ≠ (wk : Int))
    (hcnt : ∀ s ∈ staff, lookupNat duty s.name ≤ target) :
    dayPool staff duty lastWeek target wd wk = staff.map (·.name) := by
  rw [dayPool, strictPool_all staff duty lastWeek target wd wk havail hweek hcnt,
    relaxedPool1_all staff duty target wd havail hcnt,
    relaxedPool2_all staff wd havail]
  simp only [ite_self]

lemma daySelected_no_tagged (staff : List StaffRow) (target : Nat)
    (st : LoopState) (d : DutyDate) :
    daySelected staff [] target st d =
      (dayRanked staff target st d).take 3 ++
        List.replicate (3 - ((dayRanked staff target st d).take 3).length)
          UNASSIGNED := by
  rw [daySelected]
  exact selectStaff_no_tagged _

lemma dayOrdered_count (staff : List StaffRow) (target : Nat) (rand : Nat → Nat)
    (st : LoopState) (d : DutyDate) (nm : String) (hne : nm ≠ UNASSIGNED) :
    (dayOrdered staff [] target rand st d).count nm =
      ((dayRanked staff target st d).take 3).count nm := by
  rw [(dayOrdered_perm staff [] target rand st d).count_eq,
    daySelected_no_tagged, List.count_append]
  have hz : (List.replicate
      (3 - ((dayRanked staff target st d).take 3).length) UNASSIGNED).count nm
      = 0 := by
    rw [List.count_replicate]
    have hx : (UNASSIGNED == nm) = false := by
      simp only [beq_eq_false_iff_ne, ne_eq]
      intro hc
      exact hne hc.symm
    simp [hx]
  rw [hz]
  omega

lemma sum_map_zero_fn (l : List String) :
    (l.map (fun nm => (0 : Nat))).sum = 0 := by
  induction l with
  | nil => rfl
  | cons a t ih => simp [ih]

lemma sum_ge_mul (m : Nat) (f : String → Nat) :
    ∀ l : List String, (∀ x ∈ l, m ≤ f x) → l.length * m ≤ (l.map f).sum := by
  intro l
  induction l with
  | nil => intro _; simp
  | cons a t ih =>
    intro h
    rw [List.map_cons, List.sum_cons, List.length_cons, Nat.succ_mul]
    have h1 := h a (by simp)
    have h2 := ih (fun x hx => h x (by simp [hx]))
    omega

lemma balance_step (duty quiet : List (String × Nat)) (names : List String)
    (m : Nat) (hnod : names.Nodup)
    (hbal : ∀ nm ∈ names, lookupNat duty nm = m ∨ lookupNat duty nm = m + 1) :
    ∃ m', ∀ nm ∈ names,
      lookupNat duty nm +
          ((sortLt (keyLt duty quiet) names).take 3).count nm = m' ∨
      lookupNat duty nm +
          ((sortLt (keyLt duty quiet) names).take 3).count nm = m' + 1 := by
  have hperm : (sortLt (keyLt duty quiet) names).Perm names := sortLt_perm _ _
  have hsnodup : (sortLt (keyLt duty quiet) names).Nodup :=
    hperm.nodup_iff.mpr hnod
  have htnodup : ((sortLt (keyLt duty quiet) names).take 3).Nodup :=
    (List.take_sublist 3 _).nodup hsnodup
  have hcount : ∀ nm, ((sortLt (keyLt duty quiet) names).take 3).count nm =
      if nm ∈ (sortLt (keyLt duty quiet) names).take 3 then 1 else 0 := by
    intro nm
    by_cases h : nm ∈ (sortLt (keyLt duty quiet) names).take 3
    · rw [if_pos h]
      exact List.count_eq_one_of_mem htnodup h
    · rw [if_neg h]
      exact List.count_eq_zero_of_not_mem h
  have hpw : (sortLt (keyLt duty quiet) names).Pairwise
      (fun a b => keyLt duty quiet b a = false) :=
    pairwise_sortLt _ (keyLt_asymm duty quiet) (keyLt_negtrans duty quiet) names
  have hcross : ∀ x ∈ (sortLt (keyLt duty quiet) names).take 3,
      ∀ y ∈ (sortLt (keyLt duty quiet) names).drop 3,
        keyLt duty quiet y x = false := by
    have hpw2 := hpw
    rw [← List.take_append_drop 3 (sortLt (keyLt duty quiet) names)] at hpw2
    exact fun x hx y hy => (List.pairwise_append.mp hpw2).2.2 x hx y hy
  by_cases hlow : ∃ y ∈ names, lookupNat duty y = m ∧
      y ∉ (sortLt (keyLt duty quiet) names).take 3
  · obtain ⟨y, hy, hym, hynot⟩ := hlow
    have hydrop : y ∈ (sortLt (keyLt duty quiet) names).drop 3 := by
      have hys : y ∈ sortLt (keyLt duty quiet) names := hperm.mem_iff.mpr hy
      rw [← List.take_append_drop 3 (sortLt (keyLt duty quiet) names)] at hys
      rcases List.mem_append.mp hys with h | h
      · exact absurd h hynot
      · exact h
    refine ⟨m, fun nm hnm => ?_⟩
    rw [hcount nm]
    by_cases hmem : nm ∈ (sortLt (keyLt duty quiet) names).take 3
    · rw [if_pos hmem]
      have hle := hcross nm hmem y hydrop
      rw [keyLt_false_iff] at hle
      have hnmy : lookupNat duty nm ≤ lookupNat duty y := by omega
      rcases hbal nm hnm with h | h
      · omega
      · omega
    · rw [if_neg hmem]
      rcases hbal nm hnm with h | h <;> omega
  · push_neg at hlow
    refine ⟨m + 1, fun nm hnm => ?_⟩
    rw [hcount nm]
    by_cases hmem : nm ∈ (sortLt (keyLt duty quiet) names).take 3
    · rw [if_pos hmem]
      rcases hbal nm hnm with h | h <;> omega
    · rw [if_neg hmem]
      rcases hbal nm hnm with h | h
      · exact absurd (hlow nm hnm h) hmem
      · omega

lemma c4_step (staff : List StaffRow) (rand : Nat → Nat) (target : Nat)
    (hnod : (staff.map (·.name)).Nodup)
    (hU : UNASSIGNED ∉ staff.map (·.name))
    (havail : ∀ s ∈ staff, ∀ wd : Weekday, s.avail wd = true)
    (d : DutyDate) (st : LoopState) (m : Nat)
    (hdk : st.duty.map Prod.fst = staff.map (·.name))
    (hbal : ∀ nm ∈ staff.map (·.name),
      lookupNat st.duty nm = m ∨ lookupNat st.duty nm = m + 1)
    (hmt : m + 1 ≤ target)
    (hweek : ∀ nm ∈ staff.map (·.name),
      lookupInt st.lastWeek nm ≠ (d.week : Int)) :
    (processDay staff [] target rand st d).duty.map Prod.fst =
        staff.map (·.name) ∧
    (∃ m', ∀ nm ∈ staff.map (·.name),
      lookupNat (processDay staff [] target rand st d).duty nm = m' ∨
      lookupNat (processDay staff [] target rand st d).duty nm = m' + 1) ∧
    ((staff.map (·.name)).map
        (fun nm => lookupNat (processDay staff [] target rand st d).duty nm)).sum
      = ((staff.map (·.name)).map (fun nm => lookupNat st.duty nm)).sum +
          min 3 (staff.map (·.name)).length ∧
    (∀ nm ∈ staff.map (·.name),
      lookupInt (processDay staff [] target rand st d).lastWeek nm =
          (d.week : Int) ∨
      lookupInt (processDay staff [] target rand st d).lastWeek nm =
          lookupInt st.lastWeek nm) := by
  have hpool : dayPool staff st.duty st.lastWeek target d.weekday d.week =
      staff.map (·.name) := by
    refine dayPool_all staff st.duty st.lastWeek target d.weekday d.week
      (fun s hs => havail s hs d.weekday)
      (fun s hs => hweek s.name (List.mem_map_of_mem _ hs))
      (fun s hs => ?_)
    rcases hbal s.name (List.mem_map_of_mem _ hs) with h | h <;> omega
  have hrank : dayRanked staff target st d =
      sortLt (keyLt st.duty st.quiet) (staff.map (·.name)) := by
    rw [dayRanked, hpool]
  have hstep : ∀ nm ∈ staff.map (·.name),
      lookupNat (processDay staff [] target rand st d).duty nm =
        lookupNat st.duty nm +
          ((sortLt (keyLt st.duty st.quiet) (staff.map (·.name))).take 3).count
            nm := by
    intro nm hnm
    have hne : nm ≠ UNASSIGNED := fun hc => hU (hc ▸ hnm)
    rw [processDay_duty,
      lookupNat_applyDuty d.week _ st.duty st.lastWeek nm
        (by rw [hdk]; exact hnm) hne,
      dayOrdered_count staff target rand st d nm hne, hrank]
  refine ⟨?_, ?_, ?_, ?_⟩
  · rw [processDay_duty, (applyDuty_map_fst d.week _ st.duty st.lastWeek).1, hdk]
  · obtain ⟨m', hm'⟩ := balance_step st.duty st.quiet (staff.map (·.name)) m
      hnod hbal
    refine ⟨m', fun nm hnm => ?_⟩
    rw [hstep nm hnm]
    exact hm' nm hnm
  · have hmapeq : (staff.map (·.name)).map
        (fun nm => lookupNat (processDay staff [] target rand st d).duty nm) =
        (staff.map (·.name)).map (fun nm => lookupNat st.duty nm +
          ((sortLt (keyLt st.duty st.quiet) (staff.map (·.name))).take 3).count
            nm) :=
      List.map_congr_left (fun nm hnm => hstep nm hnm)
    rw [hmapeq, sum_map_add, sum_counts (staff.map (·.name)) hnod _
      (fun x hx => (sortLt_perm _ _).mem_iff.mp (List.mem_of_mem_take hx)),
      List.length_take, length_sortLt]
  · intro nm _
    rw [processDay_lastWeek]
    exact lookupInt_applyDuty_cases d.week _ st.duty st.lastWeek nm

lemma c4_fold (staff : List StaffRow) (rand : Nat → Nat) (target : Nat)
    (D : Nat)
    (hnod : (staff.map (·.name)).Nodup)
    (hU : UNASSIGNED ∉ staff.map (·.name))
    (havail : ∀ s ∈ staff, ∀ wd : Weekday, s.avail wd = true)
    (hpos : 0 < staff.length)
    (htd : staff.length * target = D * 3) :
    ∀ (rem : List DutyDate) (st : LoopState) (k : Nat),
      k + rem.length = D →
      (rem.map (·.week)).Nodup →
      st.duty.map Prod.fst = staff.map (·.name) →
      (∀ nm ∈ staff.map (·.name), ∀ d' ∈ rem,
        lookupInt st.lastWeek nm ≠ (d'.week : Int)) →
      (∃ m, ∀ nm ∈ staff.map (·.name),
        lookupNat st.duty nm = m ∨ lookupNat st.duty nm = m + 1) →
      ((staff.map (·.name)).map (fun nm => lookupNat st.duty nm)).sum =
        min 3 (staff.map (·.name)).length * k →
      ∃ m, ∀ nm ∈ staff.map (·.name),
        lookupNat
            (List.foldl (processDay staff [] target rand) st rem).duty nm = m ∨
        lookupNat
            (List.foldl (processDay staff [] target rand) st rem).duty nm =
          m + 1 := by
  intro rem
  induction rem with
  | nil =>
    intro st k _ _ _ _ hbal _
    exact hbal
  | cons d rest ih =>
    intro st k hk hwknd hdk hweek hbal hsum
    obtain ⟨m, hbal⟩ := hbal
    have hmt : m + 1 ≤ target := by
      have hge : (staff.map (·.name)).length * m ≤
          ((staff.map (·.name)).map (fun nm => lookupNat st.duty nm)).sum :=
        sum_ge_mul m _ (staff.map (·.name))
          (fun x hx => by rcases hbal x hx with h | h <;> omega)
      have h1 : min 3 (staff.map (·.name)).length * k ≤ 3 * k :=
        Nat.mul_le_mul_right k (Nat.min_le_left 3 _)
      have hA : staff.length * m ≤ 3 * k := by
        rw [List.length_map] at hge
        rw [hsum] at hge
        exact le_trans hge h1
      have hB : 3 * k < D * 3 := by
        have hk1 : k + 1 ≤ D := by
          simp only [List.length_cons] at hk
          omega
        omega
      have hC : staff.length * m < staff.length * target := by
        rw [htd]
        exact Nat.lt_of_le_of_lt hA hB
      have := Nat.lt_of_mul_lt_mul_left hC
      omega
    obtain ⟨hdk', hbal', hsum', hlw'⟩ :=
      c4_step staff rand target hnod hU havail d st m hdk hbal hmt
        (fun nm hnm => hweek nm hnm d (by simp))
    rw [List.foldl_cons]
    refine ih (processDay staff [] target rand st d) (k + 1) ?_ ?_ hdk' ?_
      hbal' ?_
    · simp only [List.length_cons] at hk
      omega
    · rw [List.map_cons] at hwknd
      exact (List.nodup_cons.mp hwknd).2
    · intro nm hnm d' hd'
      rcases hlw' nm hnm with h | h
      · rw [h]
        intro hc
        have hww : d.week = d'.week := by exact_mod_cast hc
        have hdnin : d.week ∉ rest.map (·.week) := by
          rw [List.map_cons] at hwknd
          exact (List.nodup_cons.mp hwknd).1
        exact hdnin (hww ▸ List.mem_map_of_mem (·.week) hd')
      · rw [h]
        exact hweek nm hnm d' (by simp [hd'])
    · rw [hsum', hsum, ← Nat.mul_succ]

lemma summary_total_mem (duty quiet : List (String × Nat)) (names : List String)
    (lt : SummaryRow → SummaryRow → Bool) (r : SummaryRow)
    (hr : r ∈ sortLt lt (summaryRows duty quiet names)) :
    ∃ nm ∈ names, r.totalDuties = lookupNat duty nm := by
  rw [mem_sortLt, summaryRows] at hr
  obtain ⟨nm, hnm, heq⟩ := List.mem_map.mp hr
  exact ⟨nm, hnm, by rw [← heq]⟩

/-- C4: two counterexamples to the fairness bound as claimed, each satisfying
the claim's hypotheses — uniform availability and slot count evenly divisible
by the roster size.  First, the tag-free roster A-F over four Mondays whose
ISO week numbers are 52, 52, 1, 52 (chronologically realizable across a year
boundary) ends at duty totals 3, 3, 3, 1, 1, 1: the weekly-cooldown filter
keys on the raw ISO week number, so when a week number recurs, the staff on
duty in its earlier occurrence are filtered out again.  Second, even with
pairwise-distinct week numbers, tagging A-D avoid-pairing over two dates ends
at totals 2, 2, 1, 1, 0, 0: the cap of one tagged member per day starves the
tagged majority regardless of their duty counts.  Both runs drive the spread
to 2. -/
theorem fairness_bound_counterexample :
    ((∀ s ∈ ([⟨"A", true, true, true, false⟩, ⟨"B", true, true, true, false⟩,
        ⟨"C", true, true, true, false⟩, ⟨"D", true, true, true, false⟩,
        ⟨"E", true, true, true, false⟩, ⟨"F", true, true, true, false⟩] :
          List StaffRow), ∀ wd : Weekday, s.avail wd = true) ∧
     (([⟨"A", true, true, true, false⟩, ⟨"B", true, true, true, false⟩,
        ⟨"C", true, true, true, false⟩, ⟨"D", true, true, true, false⟩,
        ⟨"E", true, true, true, false⟩, ⟨"F", true, true, true, false⟩] :
          List StaffRow).length ∣
       ([⟨"d1", Weekday.monday, 52⟩, ⟨"d2", Weekday.monday, 52⟩,
         ⟨"d3", Weekday.monday, 1⟩, ⟨"d4", Weekday.monday, 52⟩] :
           List DutyDate).length * 3) ∧
     ¬ FairnessSpread (generate_lunch_duty_schedule
         [⟨"d1", Weekday.monday, 52⟩, ⟨"d2", Weekday.monday, 52⟩,
          ⟨"d3", Weekday.monday, 1⟩, ⟨"d4", Weekday.monday, 52⟩]
         [⟨"A", true, true, true, false⟩, ⟨"B", true, true, true, false⟩,
          ⟨"C", true, true, true, false⟩, ⟨"D", true, true, true, false⟩,
          ⟨"E", true, true, true, false⟩, ⟨"F", true, true, true, false⟩]
         (fun r => 0))) ∧
    ((∀ s ∈ ([⟨"A", true, true, true, true⟩, ⟨"B", true, true, true, true⟩,
        ⟨"C", true, true, true, true⟩, ⟨"D", true, true, true, true⟩,
        ⟨"E", true, true, true, false⟩, ⟨"F", true, true, true, false⟩] :
          List StaffRow), ∀ wd : Weekday, s.avail wd = true) ∧
     (([⟨"A", true, true, true, true⟩, ⟨"B", true, true, true, true⟩,
        ⟨"C", true, true, true, true⟩, ⟨"D", true, true, true, true⟩,
        ⟨"E", true, true, true, false⟩, ⟨"F", true, true, true, false⟩] :
          List StaffRow).length ∣
       ([⟨"d1", Weekday.monday, 1⟩, ⟨"d2", Weekday.monday, 2⟩] :
           List DutyDate).length * 3) ∧
     (([⟨"d1", Weekday.monday, 1⟩, ⟨"d2", Weekday.monday, 2⟩] :
         List DutyDate).map (·.week)).Nodup ∧
     ¬ FairnessSpread (generate_lunch_duty_schedule
         [⟨"d1", Weekday.monday, 1⟩, ⟨"d2", Weekday.monday, 2⟩]
         [⟨"A", true, true, true, true⟩, ⟨"B", true, true, true, true⟩,
          ⟨"C", true, true, true, true⟩, ⟨"D", true, true, true, true⟩,
          ⟨"E", true, true, true, false⟩, ⟨"F", true, true, true, false⟩]
         (fun r => 0))) := by
  refine ⟨⟨by decide, by decide, ?_⟩, by decide, by decide, by decide, ?_⟩
  · rw [FairnessSpread]
    decide
  · rw [FairnessSpread]
    decide

/-- C4: the fairness bound holds once the duty dates carry pairwise-distinct
ISO week numbers (ruling out the week-number collision of the
counterexample), for a roster with unique names, no avoid-pairing tags, no
member literally named like the sentinel, uniform availability, and slot
count divisible by the roster size: every two totals of the summary differ by
at most 1. -/
theorem fairness_bound (dutyDays : List DutyDate) (staff : List StaffRow)
    (rand : Nat → Nat)
    (hnod : (staff.map (·.name)).Nodup)
    (hU : UNASSIGNED ∉ staff.map (·.name))
    (htags : ∀ s ∈ staff, s.avoidTag = false)
    (havail : ∀ s ∈ staff, ∀ wd : Weekday, s.avail wd = true)
    (hwk : (dutyDays.map (·.week)).Nodup)
    (hdvd : staff.length ∣ dutyDays.length * 3) :
    FairnessSpread (generate_lunch_duty_schedule dutyDays staff rand) := by
  by_cases hlen : staff.length = 0
  · rw [FairnessSpread, generate_lunch_duty_schedule, if_pos hlen]
    intro r1 hr1
    simp at hr1
  · have htagnil : (staff.filter (·.avoidTag)).map (·.name) =
        ([] : List String) := by
      have hf : staff.filter (·.avoidTag) = [] :=
        List.filter_eq_nil_iff.mpr (fun s hs => by simp [htags s hs])
      rw [hf]
      rfl
    have hres : (generate_lunch_duty_schedule dutyDays staff rand).summary =
        sortLt (fun a b => b.totalDuties < a.totalDuties)
          (summaryRows
            (List.foldl
              (processDay staff ((staff.filter (·.avoidTag)).map (·.name))
                (targetDuties dutyDays staff) rand)
              { duty := (staff.map (·.name)).map (fun n => (n, 0))
                quiet := (staff.map (·.name)).map (fun n => (n, 0))
                lastWeek := (staff.map (·.name)).map (fun n => (n, (-10 : Int)))
                ridx := 0
                sched := [] } dutyDays).duty
            (List.foldl
              (processDay staff ((staff.filter (·.avoidTag)).map (·.name))
                (targetDuties dutyDays staff) rand)
              { duty := (staff.map (·.name)).map (fun n => (n, 0))
                quiet := (staff.map (·.name)).map (fun n => (n, 0))
                lastWeek := (staff.map (·.name)).map (fun n => (n, (-10 : Int)))
                ridx := 0
                sched := [] } dutyDays).quiet
            (staff.map (·.name))) := by
      rw [generate_lunch_duty_schedule, if_neg hlen]
    rw [htagnil] at hres
    have hpos : 0 < staff.length := Nat.pos_of_ne_zero hlen
    have htd : staff.length * targetDuties dutyDays staff =
        dutyDays.length * 3 := by
      rw [targetDuties]
      exact Nat.mul_div_cancel' hdvd
    have hkeys0 : (((staff.map (·.name)).map (fun n => (n, (0 : Nat)))).map
        Prod.fst) = staff.map (·.name) := by
      rw [List.map_map]
      show (staff.map (·.name)).map (fun n => n) = staff.map (·.name)
      simp
    have hweek0 : ∀ nm ∈ staff.map (·.name), ∀ d' ∈ dutyDays,
        lookupInt ((staff.map (·.name)).map (fun n => (n, (-10 : Int)))) nm ≠
          (d'.week : Int) := by
      intro nm hnm d' _
      rw [lookupInt_map_const (staff.map (·.name)) (-10) nm hnm]
      omega
    have hsum0 : ((staff.map (·.name)).map
        (fun nm => lookupNat ((staff.map (·.name)).map (fun n => (n, 0))) nm)).sum
        = min 3 (staff.map (·.name)).length * 0 := by
      have hmz : (staff.map (·.name)).map
          (fun nm => lookupNat ((staff.map (·.name)).map (fun n => (n, 0))) nm) =
          (staff.map (·.name)).map (fun nm => (0 : Nat)) :=
        List.map_congr_left (fun nm _ => lookupNat_map_zero _ nm)
      rw [hmz, sum_map_zero_fn, Nat.mul_zero]
    have hfin := c4_fold staff rand (targetDuties dutyDays staff)
      dutyDays.length hnod hU havail hpos htd dutyDays
      { duty := (staff.map (·.name)).map (fun n => (n, 0))
        quiet := (staff.map (·.name)).map (fun n => (n, 0))
        lastWeek := (staff.map (·.name)).map (fun n => (n, (-10 : Int)))
        ridx := 0
        sched := [] } 0 (by simp) hwk hkeys0 hweek0
      ⟨0, fun nm _ => Or.inl (lookupNat_map_zero _ nm)⟩ hsum0
    obtain ⟨m, hm⟩ := hfin
    rw [FairnessSpread]
    intro r1 hr1 r2 hr2
    rw [hres] at hr1 hr2
    obtain ⟨nm1, hnm1, ht1⟩ := summary_total_mem _ _ _ _ r1 hr1
    obtain ⟨nm2, hnm2, ht2⟩ := summary_total_mem _ _ _ _ r2 hr2
    rcases hm nm1 hnm1 with h1 | h1 <;> rcases hm nm2 hnm2 with h2 | h2 <;>
      rw [ht1, ht2] <;> omega

/-- Closed instance of the C4 theorem's hypotheses at a concrete input: three
staff, one date, all hypotheses discharged by computation. -/
theorem fairness_bound_witness :
    FairnessSpread (generate_lunch_duty_schedule
      [⟨"2026-01-05", Weekday.monday, 2⟩]
      [⟨"A", true, true, true, false⟩, ⟨"B", true, true, true, false⟩,
       ⟨"C", true, true, true, false⟩] (fun r => 0)) :=
  fairness_bound [⟨"2026-01-05", Weekday.monday, 2⟩]
    [⟨"A", true, true, true, false⟩, ⟨"B", true, true, true, false⟩,
     ⟨"C", true, true, true, false⟩] (fun r => 0)
    (by decide) (by decide) (by decide) (by decide) (by decide) (by decide)

end LunchDuty
